import Mathlib

set_option maxRecDepth 4000

namespace SolidCLI

/-!
Shallow embedding of the Solid CLI pull/push synchronization core
(`src/commands/push.ts` and `src/commands/pull.ts`): manifest model,
knowledge-base frontmatter parsing, change detection, the push dispatcher
and the pull materializer, together with the remote-call and file-write
traces they produce.
-/

/-! ## JSON values (results of `JSON.parse`) -/

inductive Json where
  | null
  | str (s : String)
  | num (n : Int)
  | bool (b : Bool)
  | arr (elems : List Json)
  | obj (fields : List (String × Json))

/-- Property access `x[k]` on a parsed JSON value; `none` plays the role of
JavaScript `undefined`. -/
def Json.getField : Json → String → Option Json
  | .obj fields, k => fields.lookup k
  | _, _ => none

/-- JavaScript truthiness of a JSON value. -/
def Json.truthy : Json → Bool
  | .null => false
  | .str s => !s.data.isEmpty
  | .num n => n != 0
  | .bool b => b
  | .arr _ => true
  | .obj _ => true

/-- Truthiness of a possibly-undefined value. -/
def truthyOpt : Option Json → Bool
  | some j => j.truthy
  | none => false

/-- `Object.keys(x).length` for the values a parsed JSON field can hold. -/
def Json.keyCount : Json → Nat
  | .obj fields => fields.length
  | .str s => s.length
  | .arr elems => elems.length
  | _ => 0

/-! ## String helpers mirroring the JavaScript operations used by the CLI

All string processing is defined over the character list (`String.data`)
with structural recursion, so that every definition evaluates inside the
kernel. -/

def strStartsWith (s pre : String) : Bool :=
  pre.data.isPrefixOf s.data

def strEndsWith (s suf : String) : Bool :=
  suf.data.isSuffixOf s.data

/-- JavaScript `String.prototype.trim`. -/
def strTrim (s : String) : String :=
  String.mk (((s.data.dropWhile Char.isWhitespace).reverse.dropWhile
    Char.isWhitespace).reverse)

def splitOnCharAux (sep : Char) (acc : List Char) : List Char → List (List Char)
  | [] => [acc.reverse]
  | c :: cs =>
    if c = sep then acc.reverse :: splitOnCharAux sep [] cs
    else splitOnCharAux sep (c :: acc) cs

/-- JavaScript `s.split(sep)` for a single-character separator. -/
def strSplitOnChar (sep : Char) (s : String) : List String :=
  (splitOnCharAux sep [] s.data).map String.mk

def joinCharAux (sep : Char) : List (List Char) → List Char
  | [] => []
  | [x] => x
  | x :: y :: xs => x ++ sep :: joinCharAux sep (y :: xs)

/-- JavaScript `parts.join(sep)` for a single-character separator. -/
def joinWithChar (sep : Char) (parts : List String) : String :=
  String.mk (joinCharAux sep (parts.map String.data))

/-- Split a character list at the first occurrence of `sep`, returning the
parts before and after it (the JavaScript lazy-regex split used by
`parseKbMarkdown`). -/
def splitOnFirst (sep : List Char) : List Char → Option (List Char × List Char)
  | [] => if sep.isEmpty then some ([], []) else none
  | c :: cs =>
    if sep.isPrefixOf (c :: cs) then some ([], (c :: cs).drop sep.length)
    else
      match splitOnFirst sep cs with
      | some (l, r) => some (c :: l, r)
      | none => none

/-- JavaScript `String.prototype.replace` with a plain-string pattern:
replaces only the first occurrence. -/
def replaceFirstOcc (s pat repl : String) : String :=
  match splitOnFirst pat.data s.data with
  | some (l, r) => String.mk (l ++ repl.data ++ r)
  | none => s

/-- Digit run to a natural number. -/
def digitsToNat (ds : List Char) : Nat :=
  ds.foldl (fun a c => a * 10 + (c.toNat - '0'.toNat)) 0

/-- JavaScript `parseInt(s, 10)`: optional sign then leading decimal digits;
`none` plays the role of `NaN` (no digits at all). -/
def parseIntJS (s : String) : Option Int :=
  let cs := s.data.dropWhile Char.isWhitespace
  let signed : Int × List Char :=
    match cs with
    | '-' :: rest => (-1, rest)
    | '+' :: rest => (1, rest)
    | _ => (1, cs)
  let ds := signed.2.takeWhile Char.isDigit
  if ds.isEmpty then none else some (signed.1 * (digitsToNat ds : Int))

/-- The frontmatter title cleanup `value.replace(/^["']|["']$/g, '')`:
strips one leading and one trailing quote character. -/
def stripQuotes (s : String) : String :=
  let cs := s.data
  let cs1 :=
    match cs with
    | c :: rest => if c = '"' ∨ c = '\'' then rest else cs
    | [] => []
  let cs2 :=
    match cs1.reverse with
    | c :: rest => if c = '"' ∨ c = '\'' then rest.reverse else cs1
    | [] => []
  String.mk cs2

/-! ## Knowledge-base markdown parsing (`parseKbMarkdown` in push.ts) -/

structure KbParsed where
  id : Option Int
  title : String
  category : String
  content : String
deriving Repr, DecidableEq

/-- One `key: value` frontmatter line updates the accumulated fields. -/
def kbLineStep (acc : Option Int × String × String) (line : String) :
    Option Int × String × String :=
  let parts := strSplitOnChar ':' line
  let key := strTrim (parts.headD "")
  let value := strTrim (joinWithChar ':' (parts.tailD []))
  let acc := if key = "id" then (parseIntJS value, acc.2.1, acc.2.2) else acc
  let acc := if key = "title" then (acc.1, stripQuotes value, acc.2.2) else acc
  if key = "category" then (acc.1, acc.2.1, value) else acc

/-- `parseKbMarkdown` from push.ts: the regex
`/^---\n([\s\S]*?)\n---\n([\s\S]*)$/` followed by line-oriented `key: value`
extraction of `id`, `title` and `category`. -/
def parseKbMarkdown (content : String) : KbParsed :=
  if strStartsWith content "---\n" then
    let rest := content.data.drop 4
    match splitOnFirst "\n---\n".data rest with
    | some (fm, bodyPart) =>
      let body := strTrim (String.mk bodyPart)
      let fmLines := strSplitOnChar '\n' (String.mk fm)
      let parsed := fmLines.foldl kbLineStep (none, "Untitled", "general")
      { id := parsed.1, title := parsed.2.1, category := parsed.2.2, content := body }
    | none => { id := none, title := "Untitled", category := "general", content := strTrim content }
  else { id := none, title := "Untitled", category := "general", content := strTrim content }

/-! ## `slugify` (pull.ts) -/

def slugOk (c : Char) : Bool :=
  ('a' ≤ c ∧ c ≤ 'z') ∨ ('0' ≤ c ∧ c ≤ '9')

/-- `.replace(/[^a-z0-9]+/g, '-')`: each maximal run of disallowed
characters collapses to a single hyphen.  The flag records whether the
previous character belonged to such a run. -/
def collapseRuns : Bool → List Char → List Char
  | _, [] => []
  | prevBad, c :: cs =>
    if slugOk c then c :: collapseRuns false cs
    else if prevBad then collapseRuns true cs
    else '-' :: collapseRuns true cs

/-- `slugify` from pull.ts: lowercase, collapse non-alphanumeric runs to
hyphens, trim hyphens at both ends, truncate to 60 characters. -/
def slugify (text : String) : String :=
  let lowered := text.data.map Char.toLower
  let collapsed := collapseRuns false lowered
  let trimmed := ((collapsed.dropWhile (· = '-')).reverse.dropWhile (· = '-')).reverse
  String.mk (trimmed.take 60)

/-! ## The Manifest (`.solid/manifest.json`, interface `PullManifest`) -/

structure PageEntry where
  id : Int
  slug : String
  updated_at : String
deriving Repr, DecidableEq

structure KbEntry where
  id : Int
  title : String
deriving Repr, DecidableEq

structure SvcEntry where
  id : Int
  slug : String
deriving Repr, DecidableEq

structure ProdEntry where
  id : Int
  name : String
deriving Repr, DecidableEq

/-- The four kind-mappings are JavaScript objects keyed by local filename;
they are modelled as association lists in insertion order. -/
structure Manifest where
  company_id : Int
  company_name : String
  pulled_at : String
  api_url : String
  pages : List (String × PageEntry)
  kb : List (String × KbEntry)
  services : List (String × SvcEntry)
  products : List (String × ProdEntry)
deriving Repr, DecidableEq

/-- JavaScript object assignment `o[k] = v`: an existing key keeps its
position and gets the new value, a fresh key is appended. -/
def assocSet {β : Type} : List (String × β) → String → β → List (String × β)
  | [], k, v => [(k, v)]
  | (k', v') :: rest, k, v =>
    if k' = k then (k, v) :: rest else (k', v') :: assocSet rest k v

/-! ## The local project directory as seen by push -/

/-- Snapshot of the project directory: the two resource subdirectories
(`none` when the directory does not exist, otherwise the `readdirSync`
listing), the parsed content of each file, and `solid.config.json`. -/
structure Dir where
  pagesDir : Option (List String)
  pageContent : String → Json
  kbDir : Option (List String)
  kbContent : String → String
  solidConfig : Option Json

/-- Files push considers for pages: directory listing filtered to `.json`. -/
def pagesListing (d : Dir) : List String :=
  (d.pagesDir.getD []).filter (strEndsWith · ".json")

/-- Files push considers for the knowledge base: listing filtered to `.md`. -/
def kbListing (d : Dir) : List String :=
  (d.kbDir.getD []).filter (strEndsWith · ".md")

/-! ## Change Records (`ChangeSet` in push.ts) -/

inductive Action where
  | create
  | update
deriving Repr, DecidableEq

structure PageChange where
  file : String
  action : Action
  data : Json

structure KbChange where
  file : String
  action : Action
  data : KbParsed
deriving Repr, DecidableEq

structure SettingsChange where
  changed : Bool
  data : Json

structure Summary where
  creates : Nat
  updates : Nat
  settings : Bool
deriving Repr, DecidableEq

structure ChangeSet where
  pages : List PageChange
  kb : List KbChange
  settings : SettingsChange
  summary : Summary

/-! ## Change detection (`detectChanges` in push.ts)

The detector is embedded in state-passing style over the pair
(directory snapshot, manifest object): every filesystem access and every
access to the manifest object is a primitive that threads the state, so
that "the detector mutates nothing" is a provable statement about the
final state rather than an artifact of the translation. -/

abbrev DetSt := Dir × Manifest

def fsExistsPagesDir (st : DetSt) : Bool × DetSt := (st.1.pagesDir.isSome, st)

def fsReaddirPagesDir (st : DetSt) : List String × DetSt := (st.1.pagesDir.getD [], st)

def fsReadPageFile (f : String) (st : DetSt) : Json × DetSt := (st.1.pageContent f, st)

def fsExistsKbDir (st : DetSt) : Bool × DetSt := (st.1.kbDir.isSome, st)

def fsReaddirKbDir (st : DetSt) : List String × DetSt := (st.1.kbDir.getD [], st)

def fsReadKbFile (f : String) (st : DetSt) : String × DetSt := (st.1.kbContent f, st)

def fsExistsConfigFile (st : DetSt) : Bool × DetSt := (st.1.solidConfig.isSome, st)

def fsReadConfigFile (st : DetSt) : Json × DetSt := (st.1.solidConfig.getD Json.null, st)

def manifestPagesLookup (f : String) (st : DetSt) : Option PageEntry × DetSt :=
  (st.2.pages.lookup f, st)

def manifestKbLookup (f : String) (st : DetSt) : Option KbEntry × DetSt :=
  (st.2.kb.lookup f, st)

/-- Loop body for one page file: `update` when the manifest has the
basename as a key, else `create`. -/
def pageClassify (cs : ChangeSet) (f : String) (entry : Option PageEntry)
    (content : Json) : ChangeSet :=
  match entry with
  | some _ =>
    { cs with pages := cs.pages ++ [⟨f, .update, content⟩],
              summary := { cs.summary with updates := cs.summary.updates + 1 } }
  | none =>
    { cs with pages := cs.pages ++ [⟨f, .create, content⟩],
              summary := { cs.summary with creates := cs.summary.creates + 1 } }

/-- Loop body for one KB file: on `update` the record's `id` is overwritten
with the manifest's id (`{ ...parsed, id: manifest.kb[file].id }`). -/
def kbClassify (cs : ChangeSet) (f : String) (entry : Option KbEntry)
    (raw : String) : ChangeSet :=
  let parsed := parseKbMarkdown raw
  match entry with
  | some e =>
    { cs with kb := cs.kb ++ [⟨f, .update, { parsed with id := some e.id }⟩],
              summary := { cs.summary with updates := cs.summary.updates + 1 } }
  | none =>
    { cs with kb := cs.kb ++ [⟨f, .create, parsed⟩],
              summary := { cs.summary with creates := cs.summary.creates + 1 } }

/-- Settings detection: a non-empty `website_settings` object in
`solid.config.json` yields the single settings change. -/
def settingsClassify (cs : ChangeSet) (cfg : Json) : ChangeSet :=
  match cfg.getField "website_settings" with
  | some ws =>
    if ws.truthy ∧ ws.keyCount > 0 then
      { cs with settings := { changed := true, data := ws },
                summary := { cs.summary with settings := true } }
    else cs
  | none => cs

def stepPagesDet (acc : ChangeSet × DetSt) (f : String) : ChangeSet × DetSt :=
  let (entry, stA) := manifestPagesLookup f acc.2
  let (content, stB) := fsReadPageFile f stA
  (pageClassify acc.1 f entry content, stB)

def stepKbDet (acc : ChangeSet × DetSt) (f : String) : ChangeSet × DetSt :=
  let (entry, stA) := manifestKbLookup f acc.2
  let (raw, stB) := fsReadKbFile f stA
  (kbClassify acc.1 f entry raw, stB)

def emptyChangeSet : ChangeSet :=
  { pages := [], kb := [], settings := { changed := false, data := .obj [] },
    summary := { creates := 0, updates := 0, settings := false } }

/-- `detectChanges(baseDir, manifest)` from push.ts, threading the
filesystem/manifest state through every access. -/
def detectChangesRun (st0 : DetSt) : ChangeSet × DetSt :=
  let (pagesExists, st1) := fsExistsPagesDir st0
  let (cs1, st2) :=
    if pagesExists then
      let (files, st) := fsReaddirPagesDir st1
      (files.filter (strEndsWith · ".json")).foldl stepPagesDet (emptyChangeSet, st)
    else (emptyChangeSet, st1)
  let (kbExists, st3) := fsExistsKbDir st2
  let (cs2, st4) :=
    if kbExists then
      let (files, st) := fsReaddirKbDir st3
      (files.filter (strEndsWith · ".md")).foldl stepKbDet (cs1, st)
    else (cs1, st3)
  let (cfgExists, st5) := fsExistsConfigFile st4
  if cfgExists then
    let (cfg, st6) := fsReadConfigFile st5
    (settingsClassify cs2 cfg, st6)
  else (cs2, st5)

/-- The detector's result on a given snapshot. -/
def detectChanges (d : Dir) (m : Manifest) : ChangeSet :=
  (detectChangesRun (d, m)).1

/-! ## Characterization of the detector -/

/-- The change record the detector emits for a listed page file. -/
def pageRecOf (d : Dir) (m : Manifest) (f : String) : PageChange :=
  match m.pages.lookup f with
  | some _ => ⟨f, .update, d.pageContent f⟩
  | none => ⟨f, .create, d.pageContent f⟩

/-- The change record the detector emits for a listed KB file. -/
def kbRecOf (d : Dir) (m : Manifest) (f : String) : KbChange :=
  let parsed := parseKbMarkdown (d.kbContent f)
  match m.kb.lookup f with
  | some e => ⟨f, .update, { parsed with id := some e.id }⟩
  | none => ⟨f, .create, parsed⟩

/-- The settings object push would send, when the settings change fires. -/
def settingsWs (d : Dir) : Option Json :=
  match d.solidConfig with
  | some cfg =>
    match cfg.getField "website_settings" with
    | some ws => if ws.truthy ∧ ws.keyCount > 0 then some ws else none
    | none => none
  | none => none

def createsCount (d : Dir) (m : Manifest) : Nat :=
  ((pagesListing d).filter (fun f => (m.pages.lookup f).isNone)).length +
    ((kbListing d).filter (fun f => (m.kb.lookup f).isNone)).length

def updatesCount (d : Dir) (m : Manifest) : Nat :=
  ((pagesListing d).filter (fun f => (m.pages.lookup f).isSome)).length +
    ((kbListing d).filter (fun f => (m.kb.lookup f).isSome)).length

theorem pagesFold_spec (d : Dir) (m : Manifest) (files : List String)
    (cs : ChangeSet) :
    files.foldl stepPagesDet (cs, (d, m)) =
      ({ cs with
          pages := cs.pages ++ files.map (pageRecOf d m),
          summary := { cs.summary with
            creates := cs.summary.creates +
              (files.filter (fun f => (m.pages.lookup f).isNone)).length,
            updates := cs.summary.updates +
              (files.filter (fun f => (m.pages.lookup f).isSome)).length } },
        (d, m)) := by
  induction files generalizing cs with
  | nil => simp
  | cons f t ih =>
    simp only [List.foldl_cons, stepPagesDet, manifestPagesLookup, fsReadPageFile]
    rcases h : m.pages.lookup f with _ | e <;>
      simp [pageClassify, h, ih, pageRecOf, List.filter_cons] <;> omega

theorem kbFold_spec (d : Dir) (m : Manifest) (files : List String)
    (cs : ChangeSet) :
    files.foldl stepKbDet (cs, (d, m)) =
      ({ cs with
          kb := cs.kb ++ files.map (kbRecOf d m),
          summary := { cs.summary with
            creates := cs.summary.creates +
              (files.filter (fun f => (m.kb.lookup f).isNone)).length,
            updates := cs.summary.updates +
              (files.filter (fun f => (m.kb.lookup f).isSome)).length } },
        (d, m)) := by
  induction files generalizing cs with
  | nil => simp
  | cons f t ih =>
    simp only [List.foldl_cons, stepKbDet, manifestKbLookup, fsReadKbFile]
    rcases h : m.kb.lookup f with _ | e <;>
      simp [kbClassify, h, ih, kbRecOf, List.filter_cons] <;> omega

/-- Full characterization of `detectChanges`: one record per listed file of
the matching extension, classified by manifest-key membership, plus the
settings change; the state (directory and manifest) comes back unchanged. -/
theorem detectChangesRun_spec (d : Dir) (m : Manifest) :
    detectChangesRun (d, m) =
      ({ pages := (pagesListing d).map (pageRecOf d m),
         kb := (kbListing d).map (kbRecOf d m),
         settings := { changed := (settingsWs d).isSome,
                       data := (settingsWs d).getD (.obj []) },
         summary := { creates := createsCount d m,
                      updates := updatesCount d m,
                      settings := (settingsWs d).isSome } },
        (d, m)) := by
  unfold detectChangesRun
  simp only [fsExistsPagesDir, fsReaddirPagesDir, fsExistsKbDir, fsReaddirKbDir,
    fsExistsConfigFile, fsReadConfigFile]
  rcases hp : d.pagesDir with _ | pfiles <;>
    rcases hk : d.kbDir with _ | kfiles <;>
    rcases hc : d.solidConfig with _ | cfg <;>
    simp [hp, hk, hc, pagesFold_spec, kbFold_spec, pagesListing, kbListing,
      emptyChangeSet, settingsWs, settingsClassify, createsCount, updatesCount] <;>
    rcases hw : cfg.getField "website_settings" with _ | ws <;>
    simp [hw] <;>
    by_cases hts : ws.truthy = true ∧ ws.keyCount > 0 <;>
    simp [hts]

/-! ## Push dispatcher (`pushCommand` in push.ts) -/

structure PushOptions where
  dryRun : Bool
  yes : Bool
  pagesOnly : Bool
  kbOnly : Bool
  settingsOnly : Bool

/-- The CLI session state read from the `config` module. -/
structure Session where
  loggedIn : Bool
  companyId : Option Int
  apiUrl : String

/-- One remote write issued through the api client.  `deleteResource` is a
hypothetical deletion operation: the Remote Resource Client interface the
sync engine consumes offers none, and the dispatcher is proved never to
emit one. -/
inductive RemoteCall where
  | pageUpdate (id : Int) (data : List (String × Json))
  | pageCreate (data : List (String × Json))
  | kbUpdate (id : Int) (title content category : String)
  | kbCreate (title content category : String)
  | updateWebsiteSettings (data : Json)
  | deleteResource (kind : String) (id : Int)

def RemoteCall.isDelete : RemoteCall → Bool
  | .deleteResource _ _ => true
  | _ => false

/-- Remote responses, keyed by the file a record dispatches; `some msg`
models a thrown/caught api error for that record. -/
structure PushEnv where
  pageUpdateErr : String → Option String
  pageCreateRes : String → Except String (Int × Option String)
  kbUpdateErr : String → Option String
  kbCreateRes : String → Except String Int
  settingsErr : Option String
  confirmAnswer : Bool
  now : String

/-- The sparse page-update payload (push.ts lines 247-256): `title`,
`slug` and `layout_json` are included when truthy, the four `!== undefined`
fields when present. -/
def buildPageUpdateData (data : Json) : List (String × Json) :=
  (if truthyOpt (data.getField "title") then
    [("title", (data.getField "title").getD .null)] else []) ++
  (if truthyOpt (data.getField "slug") then
    [("slug", (data.getField "slug").getD .null)] else []) ++
  (if (data.getField "meta_title").isSome then
    [("meta_title", (data.getField "meta_title").getD .null)] else []) ++
  (if (data.getField "meta_description").isSome then
    [("meta_description", (data.getField "meta_description").getD .null)] else []) ++
  (if truthyOpt (data.getField "layout_json") then
    [("layout_json", (data.getField "layout_json").getD .null)] else []) ++
  (if (data.getField "is_published").isSome then
    [("is_published", (data.getField "is_published").getD .null)] else []) ++
  (if (data.getField "is_landing_page").isSome then
    [("is_landing_page", (data.getField "is_landing_page").getD .null)] else [])

/-- JavaScript `a || b` on JSON values. -/
def jsonOr (o : Option Json) (fallback : Json) : Json :=
  match o with
  | some j => if j.truthy then j else fallback
  | none => fallback

/-- The page-create payload (push.ts lines 262-269). -/
def buildPageCreateData (file : String) (data : Json) : List (String × Json) :=
  [("title", jsonOr (data.getField "title") (.str (replaceFirstOcc file ".json" ""))),
   ("slug", jsonOr (data.getField "slug") (.str (replaceFirstOcc file ".json" ""))),
   ("page_type", jsonOr (data.getField "page_type") (.str "website")),
   ("layout_json", jsonOr (data.getField "layout_json") (.obj [("sections", .arr [])]))] ++
  (if truthyOpt (data.getField "meta_title") then
    [("meta_title", (data.getField "meta_title").getD .null)] else []) ++
  (if truthyOpt (data.getField "meta_description") then
    [("meta_description", (data.getField "meta_description").getD .null)] else [])

def Json.asString : Json → String
  | .str s => s
  | _ => ""

/-- State carried through the dispatch loops: the (mutable) manifest
object and the `pushed`/`errors` counters, plus the trace of remote calls
attempted so far. -/
structure DispatchSt where
  manifest : Manifest
  pushed : Nat
  errors : Nat
  calls : List RemoteCall

/-- The page `create` branch: on success the manifest gains the remote id
returned by the create call (`manifest.pages[page.file] = {...}`). -/
def pushPageCreate (env : PushEnv) (st : DispatchSt) (pc : PageChange) : DispatchSt :=
  let createData := buildPageCreateData pc.file pc.data
  match env.pageCreateRes pc.file with
  | .ok (newId, respSlug) =>
    let slugStr :=
      match respSlug with
      | some s => s
      | none =>
        (jsonOr (pc.data.getField "slug")
          (.str (replaceFirstOcc pc.file ".json" ""))).asString
    { st with
        manifest := { st.manifest with
          pages := assocSet st.manifest.pages pc.file ⟨newId, slugStr, env.now⟩ },
        pushed := st.pushed + 1,
        calls := st.calls ++ [.pageCreate createData] }
  | .error _ =>
    { st with errors := st.errors + 1, calls := st.calls ++ [.pageCreate createData] }

/-- One page record: `update` is dispatched only when the record is
classified `update` and the manifest entry's id is truthy
(`page.action === 'update' && manifest.pages[page.file]?.id`); every other
case falls into the create branch. -/
def pushPageRecord (env : PushEnv) (st : DispatchSt) (pc : PageChange) : DispatchSt :=
  match st.manifest.pages.lookup pc.file with
  | some entry =>
    if pc.action = .update ∧ entry.id ≠ 0 then
      let updateData := buildPageUpdateData pc.data
      match env.pageUpdateErr pc.file with
      | none =>
        { st with pushed := st.pushed + 1,
                  calls := st.calls ++ [.pageUpdate entry.id updateData] }
      | some _ =>
        { st with errors := st.errors + 1,
                  calls := st.calls ++ [.pageUpdate entry.id updateData] }
    else pushPageCreate env st pc
  | none => pushPageCreate env st pc

/-- Truthiness of the `id` carried in a KB change record. -/
def kbIdTruthy : Option Int → Bool
  | some i => i != 0
  | none => false

def pushKbCreate (env : PushEnv) (st : DispatchSt) (kc : KbChange) : DispatchSt :=
  match env.kbCreateRes kc.file with
  | .ok newId =>
    { st with
        manifest := { st.manifest with
          kb := assocSet st.manifest.kb kc.file ⟨newId, kc.data.title⟩ },
        pushed := st.pushed + 1,
        calls := st.calls ++ [.kbCreate kc.data.title kc.data.content kc.data.category] }
  | .error _ =>
    { st with errors := st.errors + 1,
              calls := st.calls ++ [.kbCreate kc.data.title kc.data.content kc.data.category] }

/-- One KB record: `kb.action === 'update' && kb.data.id` selects the
update call, whose id is the one stored in the record by the detector. -/
def pushKbRecord (env : PushEnv) (st : DispatchSt) (kc : KbChange) : DispatchSt :=
  if kc.action = .update ∧ kbIdTruthy kc.data.id then
    let i := kc.data.id.getD 0
    match env.kbUpdateErr kc.file with
    | none =>
      { st with pushed := st.pushed + 1,
                calls := st.calls ++ [.kbUpdate i kc.data.title kc.data.content kc.data.category] }
    | some _ =>
      { st with errors := st.errors + 1,
                calls := st.calls ++ [.kbUpdate i kc.data.title kc.data.content kc.data.category] }
  else pushKbCreate env st kc

def pushSettings (env : PushEnv) (st : DispatchSt) (data : Json) : DispatchSt :=
  match env.settingsErr with
  | none =>
    { st with pushed := st.pushed + 1, calls := st.calls ++ [.updateWebsiteSettings data] }
  | some _ =>
    { st with errors := st.errors + 1, calls := st.calls ++ [.updateWebsiteSettings data] }

inductive PushOutcome where
  | notLoggedIn
  | noCompanyId
  | noManifest
  | tenantMismatch (manifestCompany sessionCompany : Int)
  | noChanges
  | dryRunShown
  | cancelled
  | completed (pushed errors : Nat)
deriving Repr, DecidableEq

/-- Observable result of one push invocation: the exit path taken, the
ordered remote-call trace, the content written to `.solid/manifest.json`
(`none` when the file was never rewritten), and the change set the scan
produced (`none` when the command exited before scanning). -/
structure PushRun where
  outcome : PushOutcome
  calls : List RemoteCall
  manifestWrite : Option Manifest
  detected : Option ChangeSet

/-- The pages section of the dispatcher
(`if (!options.kbOnly && !options.settingsOnly && changes.pages.length > 0)`). -/
def pagesPhase (opts : PushOptions) (env : PushEnv) (changes : ChangeSet)
    (st : DispatchSt) : DispatchSt :=
  if !opts.kbOnly && !opts.settingsOnly && !changes.pages.isEmpty then
    changes.pages.foldl (pushPageRecord env) st
  else st

/-- The knowledge-base section of the dispatcher. -/
def kbPhase (opts : PushOptions) (env : PushEnv) (changes : ChangeSet)
    (st : DispatchSt) : DispatchSt :=
  if !opts.pagesOnly && !opts.settingsOnly && !changes.kb.isEmpty then
    changes.kb.foldl (pushKbRecord env) st
  else st

/-- The settings section of the dispatcher. -/
def settingsPhase (opts : PushOptions) (env : PushEnv) (changes : ChangeSet)
    (st : DispatchSt) : DispatchSt :=
  if !opts.pagesOnly && !opts.kbOnly && changes.settings.changed then
    pushSettings env st changes.settings.data
  else st

/-- The three dispatch phases of push, in their fixed order: pages, then
knowledge base, then settings, each guarded by the kind-scoping flags. -/
def pushDispatch (opts : PushOptions) (env : PushEnv) (manifest : Manifest)
    (changes : ChangeSet) : DispatchSt :=
  settingsPhase opts env changes
    (kbPhase opts env changes (pagesPhase opts env changes ⟨manifest, 0, 0, []⟩))

/-- `pushCommand` from push.ts: precondition gates, change detection,
dry-run/confirmation, the three dispatch phases in fixed order, and the
single end-of-run manifest write. -/
def pushCommand (opts : PushOptions) (sess : Session) (manifestFile : Option Manifest)
    (d : Dir) (env : PushEnv) : PushRun :=
  if !sess.loggedIn then ⟨.notLoggedIn, [], none, none⟩
  else
    match sess.companyId with
    | none => ⟨.noCompanyId, [], none, none⟩
    | some companyId =>
      if companyId = 0 then ⟨.noCompanyId, [], none, none⟩
      else
        match manifestFile with
        | none => ⟨.noManifest, [], none, none⟩
        | some manifest =>
          if manifest.company_id ≠ companyId then
            ⟨.tenantMismatch manifest.company_id companyId, [], none, none⟩
          else
            let changes := detectChanges d manifest
            let totalChanges := changes.summary.creates + changes.summary.updates +
              (if changes.summary.settings then 1 else 0)
            if totalChanges = 0 then ⟨.noChanges, [], none, some changes⟩
            else if opts.dryRun then ⟨.dryRunShown, [], none, some changes⟩
            else if !opts.yes && !env.confirmAnswer then ⟨.cancelled, [], none, some changes⟩
            else
              let st3 := pushDispatch opts env manifest changes
              let finalManifest := { st3.manifest with pulled_at := env.now }
              ⟨.completed st3.pushed st3.errors, st3.calls, some finalManifest, some changes⟩

/-! ## Pull materializer (`pullCommand` in pull.ts) -/

structure PullOptions where
  pagesOnly : Bool
  kbOnly : Bool
  force : Bool

/-- The company record returned by the company-info endpoint. -/
structure Company where
  name : String
  slug : String
  industry : String
  tier : String
  contact_phone : String
  contact_email : String
  location : String
  business_hours : String
  website_settings : Json

structure PageSummary where
  id : Int
deriving Repr, DecidableEq

/-- A full page as returned by the per-page detail fetch; `""` in `slug`,
`page_type` or `updated_at` models a falsy (missing/empty) value. -/
structure PageData where
  id : Int
  title : String
  slug : String
  page_type : String
  is_published : Bool
  is_landing_page : Bool
  meta_title : Json
  meta_description : Json
  layout_json : Json
  updated_at : String

structure KbRemote where
  id : Int
  title : String
  category : String
  content : String
deriving Repr, DecidableEq

structure SvcRemote where
  id : Int
  title : String
  slug : String
deriving Repr, DecidableEq

structure ProdRemote where
  id : Int
  name : String
deriving Repr, DecidableEq

/-- What gets written to a local path by pull (serialization to bytes is
outside the model; the blob records which resource the file holds). -/
inductive FileBlob where
  | configFile (c : Company)
  | pageFile (p : PageData)
  | kbFile (e : KbRemote)
  | svcFile (s : SvcRemote)
  | prodFile (p : ProdRemote)
  | manifestBlob (m : Manifest)
  | gitignoreFile

inductive PullCall where
  | companyInfo
  | pagesList
  | pageGet (id : Int)
  | kbSearch
  | servicesList
  | productsList
deriving Repr, DecidableEq

/-- Remote responses available to one pull invocation. -/
structure PullEnv where
  companyInfoRes : Except String Company
  pagesListRes : Except String (List PageSummary)
  pageGetRes : Int → Except String PageData
  kbSearchRes : Except String (List KbRemote)
  servicesListRes : Except String (List SvcRemote)
  productsListRes : Except String (List ProdRemote)
  now : String

/-- The pieces of the target directory pull consults before writing. -/
structure PullFS where
  manifestFile : Option Manifest
  gitignoreExists : Bool

inductive PullOutcome where
  | notLoggedIn
  | noCompanyId
  | refusedForeign (manifestCompany sessionCompany : Int)
  | infoFailed
  | completed
deriving Repr, DecidableEq

/-- Observable result of one pull invocation: exit path, remote-call trace,
ordered local writes, the manifest written (`none` when the run aborted
first), the `Pulled N files` total, and the per-kind counts shown in the
spinner messages (`none` when the kind was skipped or its list call
failed). -/
structure PullRun where
  outcome : PullOutcome
  calls : List PullCall
  writes : List (String × FileBlob)
  finalManifest : Option Manifest
  totalFiles : Nat
  reportedPages : Option Nat
  reportedKb : Option Nat
  reportedServices : Option Nat
  reportedProducts : Option Nat

/-- Accumulator of the per-page loop. -/
structure PagesAcc where
  calls : List PullCall
  writes : List (String × FileBlob)
  entries : List (String × PageEntry)
  count : Nat

/-- One page of the pull loop: the detail fetch is attempted; on failure
the page is skipped (`catch {}`), on success the file is written and the
fresh manifest records `{id, slug, updated_at || now}`. -/
def pullPageStep (env : PullEnv) (acc : PagesAcc) (p : PageSummary) : PagesAcc :=
  let calls := acc.calls ++ [.pageGet p.id]
  match env.pageGetRes p.id with
  | .ok pd =>
    let filename := (if pd.slug ≠ "" then pd.slug else slugify pd.title) ++ ".json"
    { calls := calls,
      writes := acc.writes ++ [("pages/" ++ filename, .pageFile pd)],
      entries := assocSet acc.entries filename
        ⟨pd.id, pd.slug, if pd.updated_at ≠ "" then pd.updated_at else env.now⟩,
      count := acc.count + 1 }
  | .error _ => { acc with calls := calls }

def pullKbLoop (entries : List KbRemote) :
    List (String × FileBlob) × List (String × KbEntry) :=
  entries.foldl (fun acc e =>
    let filename := slugify (if e.title ≠ "" then e.title else "entry-" ++ toString e.id) ++ ".md"
    (acc.1 ++ [("kb/" ++ filename, .kbFile e)], assocSet acc.2 filename ⟨e.id, e.title⟩))
    ([], [])

def pullServicesLoop (items : List SvcRemote) :
    List (String × FileBlob) × List (String × SvcEntry) :=
  items.foldl (fun acc s =>
    let filename := (if s.slug ≠ "" then s.slug else slugify s.title) ++ ".json"
    (acc.1 ++ [("services/" ++ filename, .svcFile s)], assocSet acc.2 filename ⟨s.id, s.slug⟩))
    ([], [])

def pullProductsLoop (items : List ProdRemote) :
    List (String × FileBlob) × List (String × ProdEntry) :=
  items.foldl (fun acc p =>
    let filename := slugify p.name ++ ".json"
    (acc.1 ++ [("products/" ++ filename, .prodFile p)],
     assocSet acc.2 filename ⟨p.id, p.name⟩))
    ([], [])

/-- Result of processing one resource kind. -/
structure KindResult (entryT : Type) where
  calls : List PullCall
  writes : List (String × FileBlob)
  entries : List (String × entryT)
  count : Nat
  reported : Option Nat

def pullPagesPhase (opts : PullOptions) (env : PullEnv) : KindResult PageEntry :=
  if !opts.kbOnly then
    match env.pagesListRes with
    | .ok pages =>
      let acc := pages.foldl (pullPageStep env) ⟨[], [], [], 0⟩
      ⟨.pagesList :: acc.calls, acc.writes, acc.entries, acc.count, some pages.length⟩
    | .error _ => ⟨[.pagesList], [], [], 0, none⟩
  else ⟨[], [], [], 0, none⟩

def pullKbPhase (opts : PullOptions) (env : PullEnv) : KindResult KbEntry :=
  if !opts.pagesOnly then
    match env.kbSearchRes with
    | .ok entries =>
      let r := pullKbLoop entries
      ⟨[.kbSearch], r.1, r.2, entries.length, some entries.length⟩
    | .error _ => ⟨[.kbSearch], [], [], 0, none⟩
  else ⟨[], [], [], 0, none⟩

def pullServicesPhase (opts : PullOptions) (env : PullEnv) : KindResult SvcEntry :=
  if !opts.pagesOnly && !opts.kbOnly then
    match env.servicesListRes with
    | .ok items =>
      let r := pullServicesLoop items
      ⟨[.servicesList], r.1, r.2, items.length, some items.length⟩
    | .error _ => ⟨[.servicesList], [], [], 0, none⟩
  else ⟨[], [], [], 0, none⟩

def pullProductsPhase (opts : PullOptions) (env : PullEnv) : KindResult ProdEntry :=
  if !opts.pagesOnly && !opts.kbOnly then
    match env.productsListRes with
    | .ok items =>
      let r := pullProductsLoop items
      ⟨[.productsList], r.1, r.2, items.length, some items.length⟩
    | .error _ => ⟨[.productsList], [], [], 0, none⟩
  else ⟨[], [], [], 0, none⟩

/-- The main body of pull: company info (fatal on failure), then the four
kinds independently, then the fresh manifest replaces the old one and a
`.gitignore` is created if absent. -/
def pullBody (opts : PullOptions) (companyId : Int) (apiUrl : String)
    (fs : PullFS) (env : PullEnv) : PullRun :=
  let m0 : Manifest :=
    { company_id := companyId, company_name := "", pulled_at := env.now,
      api_url := apiUrl, pages := [], kb := [], services := [], products := [] }
  match env.companyInfoRes with
  | .error _ => ⟨.infoFailed, [.companyInfo], [], none, 0, none, none, none, none⟩
  | .ok company =>
    let pp := pullPagesPhase opts env
    let pk := pullKbPhase opts env
    let ps := pullServicesPhase opts env
    let pr := pullProductsPhase opts env
    let finalM := { m0 with
      company_name := company.name,
      pages := pp.entries, kb := pk.entries,
      services := ps.entries, products := pr.entries }
    ⟨.completed,
     .companyInfo :: (pp.calls ++ pk.calls ++ ps.calls ++ pr.calls),
     [("solid.config.json", .configFile company)] ++
       pp.writes ++ pk.writes ++ ps.writes ++ pr.writes ++
       [(".solid/manifest.json", .manifestBlob finalM)] ++
       (if fs.gitignoreExists then [] else [(".gitignore", .gitignoreFile)]),
     some finalM,
     1 + pp.count + pk.count + ps.count + pr.count,
     pp.reported, pk.reported, ps.reported, pr.reported⟩

/-- `pullCommand` from pull.ts: login gates, then the ownership check —
performed only when a manifest exists *and* `--force` was not given — then
the main body. -/
def pullCommand (opts : PullOptions) (sess : Session) (fs : PullFS)
    (env : PullEnv) : PullRun :=
  if !sess.loggedIn then ⟨.notLoggedIn, [], [], none, 0, none, none, none, none⟩
  else
    match sess.companyId with
    | none => ⟨.noCompanyId, [], [], none, 0, none, none, none, none⟩
    | some companyId =>
      if companyId = 0 then ⟨.noCompanyId, [], [], none, 0, none, none, none, none⟩
      else
        match fs.manifestFile, opts.force with
        | some existing, false =>
          if existing.company_id ≠ companyId then
            ⟨.refusedForeign existing.company_id companyId, [], [], none, 0,
             none, none, none, none⟩
          else pullBody opts companyId sess.apiUrl fs env
        | _, _ => pullBody opts companyId sess.apiUrl fs env

/-- The numeric counts one pull invocation surfaces to the caller: the
`Pulled N files` total plus the per-kind spinner counts. -/
def surfacedCounts (r : PullRun) : List Nat :=
  r.totalFiles :: ([r.reportedPages, r.reportedKb, r.reportedServices,
    r.reportedProducts].filterMap id)

/-! ## Helper lemmas -/

theorem assocSet_lookup_ne {β : Type} (l : List (String × β)) (k k' : String)
    (v : β) (h : k' ≠ k) : (assocSet l k v).lookup k' = l.lookup k' := by
  have hb : (k' == k) = false := by simp [h]
  induction l with
  | nil => simp [assocSet, List.lookup, hb]
  | cons kv rest ih =>
    obtain ⟨k0, v0⟩ := kv
    by_cases hk : k0 = k
    · subst hk
      simp [assocSet, List.lookup, hb]
    · by_cases hk2 : k' = k0
      · subst hk2
        simp [assocSet, hk, List.lookup]
      · have hb2 : (k' == k0) = false := by simp [hk2]
        simp [assocSet, hk, List.lookup, hb2, ih]

/-- The detector in its characterized form. -/
theorem detectChanges_eq (d : Dir) (m : Manifest) :
    detectChanges d m =
      { pages := (pagesListing d).map (pageRecOf d m),
        kb := (kbListing d).map (kbRecOf d m),
        settings := { changed := (settingsWs d).isSome,
                      data := (settingsWs d).getD (.obj []) },
        summary := { creates := createsCount d m,
                     updates := updatesCount d m,
                     settings := (settingsWs d).isSome } } := by
  unfold detectChanges
  rw [detectChangesRun_spec]

theorem detect_kb_create_of_empty (d : Dir) (M : Manifest) (h : M.kb = []) :
    ∀ kc ∈ (detectChanges d M).kb, kc.action = .create := by
  intro kc hkc
  rw [detectChanges_eq] at hkc
  simp only [List.mem_map] at hkc
  obtain ⟨f, _, rfl⟩ := hkc
  simp [kbRecOf, h]

theorem detect_pages_create_of_empty (d : Dir) (M : Manifest) (h : M.pages = []) :
    ∀ pc ∈ (detectChanges d M).pages, pc.action = .create := by
  intro pc hpc
  rw [detectChanges_eq] at hpc
  simp only [List.mem_map] at hpc
  obtain ⟨f, _, rfl⟩ := hpc
  simp [pageRecOf, h]

/-! ## Claim theorems -/

/-- C8: the Change Detector mutates neither the directory snapshot nor the
Manifest object (the state it threads comes back equal), and a second run
on the state left by the first produces the identical change set. -/
theorem detect_changes_pure_idempotent (st : DetSt) :
    (detectChangesRun st).2 = st ∧
    (detectChangesRun ((detectChangesRun st).2)).1 = (detectChangesRun st).1 := by
  obtain ⟨d, m⟩ := st
  refine ⟨?_, ?_⟩ <;> simp [detectChangesRun_spec]

/-- C1: a listed file's change record is classified `update` exactly when
its basename is a key of the matching Manifest kind-mapping, and `create`
exactly otherwise — for pages (`pages/*.json`) and KB (`kb/*.md`) alike. -/
theorem detect_update_iff_manifest_key (d : Dir) (m : Manifest) :
    (∀ pc ∈ (detectChanges d m).pages,
        (pc.action = Action.update ↔ (m.pages.lookup pc.file).isSome) ∧
        (pc.action = Action.create ↔ m.pages.lookup pc.file = none)) ∧
    (∀ kc ∈ (detectChanges d m).kb,
        (kc.action = Action.update ↔ (m.kb.lookup kc.file).isSome) ∧
        (kc.action = Action.create ↔ m.kb.lookup kc.file = none)) := by
  rw [detectChanges_eq]
  constructor
  · intro pc hpc
    simp only [List.mem_map] at hpc
    obtain ⟨f, _, rfl⟩ := hpc
    rcases h : m.pages.lookup f with _ | e <;> simp [pageRecOf, h]
  · intro kc hkc
    simp only [List.mem_map] at hkc
    obtain ⟨f, _, rfl⟩ := hkc
    rcases h : m.kb.lookup f with _ | e <;> simp [kbRecOf, h]

def dirC1 : Dir :=
  { pagesDir := some ["about.json", "notes.txt"],
    pageContent := fun _ => .obj [("title", .str "About")],
    kbDir := some ["welcome.md"],
    kbContent := fun _ => "hello",
    solidConfig := none }

def manC1 : Manifest :=
  { company_id := 1, company_name := "Acme", pulled_at := "t0", api_url := "u",
    pages := [("about.json", ⟨42, "about", "t1"⟩)], kb := [], services := [],
    products := [] }

theorem detect_update_iff_manifest_key_witness :
    (Action.update = Action.update ↔ (manC1.pages.lookup "about.json").isSome) ∧
    (Action.create = Action.create ↔ manC1.kb.lookup "welcome.md" = none) := by
  have h := detect_update_iff_manifest_key dirC1 manC1
  refine ⟨(h.1 ⟨"about.json", .update, .obj [("title", .str "About")]⟩ ?_).1,
          (h.2 ⟨"welcome.md", .create, parseKbMarkdown "hello"⟩ ?_).2⟩
  · rw [show (detectChanges dirC1 manC1).pages =
        [⟨"about.json", .update, .obj [("title", .str "About")]⟩] from rfl]
    exact List.mem_singleton.mpr rfl
  · rw [show (detectChanges dirC1 manC1).kb =
        [⟨"welcome.md", .create, parseKbMarkdown "hello"⟩] from rfl]
    exact List.mem_singleton.mpr rfl

/-- C3: when the loaded Manifest's company differs from the session's
company, push aborts with a tenant-mismatch outcome carrying both IDs,
issues zero remote calls, rewrites no manifest, and never reaches change
detection. -/
theorem push_tenant_mismatch_aborts (opts : PushOptions) (sess : Session)
    (m : Manifest) (d : Dir) (env : PushEnv) (cid : Int)
    (hlog : sess.loggedIn = true) (hcid : sess.companyId = some cid)
    (hnz : cid ≠ 0) (hmm : m.company_id ≠ cid) :
    pushCommand opts sess (some m) d env =
      ⟨.tenantMismatch m.company_id cid, [], none, none⟩ := by
  unfold pushCommand
  rw [hcid]
  simp [hlog, hnz, hmm]

def sessC3 : Session := { loggedIn := true, companyId := some 2, apiUrl := "u" }

def manC3 : Manifest :=
  { company_id := 9, company_name := "Other", pulled_at := "t0", api_url := "u",
    pages := [], kb := [], services := [], products := [] }

def dirEmpty : Dir :=
  { pagesDir := none, pageContent := fun _ => .null, kbDir := none,
    kbContent := fun _ => "", solidConfig := none }

def optsPushDefault : PushOptions :=
  { dryRun := false, yes := true, pagesOnly := false, kbOnly := false,
    settingsOnly := false }

def envPushInert : PushEnv :=
  { pageUpdateErr := fun _ => none, pageCreateRes := fun _ => .ok (1, none),
    kbUpdateErr := fun _ => none, kbCreateRes := fun _ => .ok 1,
    settingsErr := none, confirmAnswer := true, now := "t9" }

theorem push_tenant_mismatch_aborts_witness :
    pushCommand optsPushDefault sessC3 (some manC3) dirEmpty envPushInert =
      ⟨.tenantMismatch 9 2, [], none, none⟩ := by
  have h := push_tenant_mismatch_aborts optsPushDefault sessC3 manC3 dirEmpty
    envPushInert 2 rfl rfl (by decide) (by decide)
  simpa using h

/-- C7 counterexample: with zero detected changes push exits on the
"nothing to do" path *before* the end-of-run manifest write, so the
Manifest file is not rewritten and `pulled_at` is not updated — refuting
the claim that the timestamp is still updated. -/
theorem push_no_changes_skips_manifest_write :
    (pushCommand optsPushDefault
        { loggedIn := true, companyId := some 9, apiUrl := "u" } (some manC3)
        dirEmpty envPushInert).outcome = .noChanges ∧
    (pushCommand optsPushDefault
        { loggedIn := true, companyId := some 9, apiUrl := "u" } (some manC3)
        dirEmpty envPushInert).calls = [] ∧
    (pushCommand optsPushDefault
        { loggedIn := true, companyId := some 9, apiUrl := "u" } (some manC3)
        dirEmpty envPushInert).manifestWrite = none := by
  refine ⟨rfl, rfl, rfl⟩

/-- C7 amended: a push whose scan finds zero changes succeeds on the
distinct "no changes" path, makes no remote calls, and does not rewrite
the Manifest file at all — its mapping contents are untouched but so is
`pulled_at`, which is only updated when at least one change is
dispatched. -/
theorem push_no_changes_noop_success (opts : PushOptions) (sess : Session)
    (m : Manifest) (d : Dir) (env : PushEnv) (cid : Int)
    (hlog : sess.loggedIn = true) (hcid : sess.companyId = some cid)
    (hnz : cid ≠ 0) (hm : m.company_id = cid)
    (h0 : (detectChanges d m).summary.creates +
        (detectChanges d m).summary.updates +
        (if (detectChanges d m).summary.settings then 1 else 0) = 0) :
    pushCommand opts sess (some m) d env =
      ⟨.noChanges, [], none, some (detectChanges d m)⟩ := by
  unfold pushCommand
  rw [hcid]
  simp [hlog, hnz, hm, h0]

theorem push_no_changes_noop_success_witness :
    pushCommand optsPushDefault
        { loggedIn := true, companyId := some 9, apiUrl := "u" } (some manC3)
        dirEmpty envPushInert =
      ⟨.noChanges, [], none, some (detectChanges dirEmpty manC3)⟩ := by
  exact push_no_changes_noop_success optsPushDefault
    { loggedIn := true, companyId := some 9, apiUrl := "u" } manC3 dirEmpty
    envPushInert 9 rfl rfl (by decide) rfl rfl

theorem pullBody_finalManifest (opts : PullOptions) (cid : Int) (apiUrl : String)
    (fs : PullFS) (env : PullEnv) (M : Manifest)
    (hM : (pullBody opts cid apiUrl fs env).finalManifest = some M) :
    M.pages = (pullPagesPhase opts env).entries ∧
    M.kb = (pullKbPhase opts env).entries ∧
    M.services = (pullServicesPhase opts env).entries ∧
    M.products = (pullProductsPhase opts env).entries := by
  unfold pullBody at hM
  cases hinfo : env.companyInfoRes with
  | error e => rw [hinfo] at hM; simp at hM
  | ok c =>
    rw [hinfo] at hM
    simp only [Option.some.injEq] at hM
    subst hM
    exact ⟨rfl, rfl, rfl, rfl⟩

theorem pullCommand_finalManifest (opts : PullOptions) (sess : Session)
    (fs : PullFS) (env : PullEnv) (M : Manifest)
    (hM : (pullCommand opts sess fs env).finalManifest = some M) :
    M.pages = (pullPagesPhase opts env).entries ∧
    M.kb = (pullKbPhase opts env).entries ∧
    M.services = (pullServicesPhase opts env).entries ∧
    M.products = (pullProductsPhase opts env).entries := by
  unfold pullCommand at hM
  split at hM
  · simp at hM
  · split at hM
    · simp at hM
    · split at hM
      · simp at hM
      · split at hM
        · split at hM
          · simp at hM
          · exact pullBody_finalManifest _ _ _ _ _ _ hM
        · exact pullBody_finalManifest _ _ _ _ _ _ hM

theorem pullKbPhase_pagesOnly (opts : PullOptions) (env : PullEnv)
    (h : opts.pagesOnly = true) : (pullKbPhase opts env).entries = [] := by
  simp [pullKbPhase, h]

theorem pullPagesPhase_kbOnly (opts : PullOptions) (env : PullEnv)
    (h : opts.kbOnly = true) : (pullPagesPhase opts env).entries = [] := by
  simp [pullPagesPhase, h]

theorem pullServicesPhase_scoped (opts : PullOptions) (env : PullEnv)
    (h : opts.pagesOnly = true ∨ opts.kbOnly = true) :
    (pullServicesPhase opts env).entries = [] := by
  rcases h with h | h <;> simp [pullServicesPhase, h]

theorem pullProductsPhase_scoped (opts : PullOptions) (env : PullEnv)
    (h : opts.pagesOnly = true ∨ opts.kbOnly = true) :
    (pullProductsPhase opts env).entries = [] := by
  rcases h with h | h <;> simp [pullProductsPhase, h]

/-- C10: a kind-scoped pull writes a Manifest whose mappings for every
kind that was not pulled are empty — `--pages-only` empties the kb,
services and products mappings, `--kb-only` empties pages, services and
products — regardless of what the previous Manifest held, so a later push
over any directory classifies every file of those kinds as `create`. -/
theorem pull_scoped_manifest_drops_other_kinds (opts : PullOptions)
    (sess : Session) (fs : PullFS) (env : PullEnv) (M : Manifest)
    (hM : (pullCommand opts sess fs env).finalManifest = some M) :
    (opts.pagesOnly = true →
      M.kb = [] ∧ M.services = [] ∧ M.products = [] ∧
      ∀ d : Dir, ∀ kc ∈ (detectChanges d M).kb, kc.action = .create) ∧
    (opts.kbOnly = true →
      M.pages = [] ∧ M.services = [] ∧ M.products = [] ∧
      ∀ d : Dir, ∀ pc ∈ (detectChanges d M).pages, pc.action = .create) := by
  obtain ⟨hp, hk, hs, hpr⟩ := pullCommand_finalManifest opts sess fs env M hM
  constructor
  · intro h
    have hkb : M.kb = [] := hk.trans (pullKbPhase_pagesOnly opts env h)
    exact ⟨hkb, hs.trans (pullServicesPhase_scoped opts env (Or.inl h)),
      hpr.trans (pullProductsPhase_scoped opts env (Or.inl h)),
      fun d => detect_kb_create_of_empty d M hkb⟩
  · intro h
    have hpg : M.pages = [] := hp.trans (pullPagesPhase_kbOnly opts env h)
    exact ⟨hpg, hs.trans (pullServicesPhase_scoped opts env (Or.inr h)),
      hpr.trans (pullProductsPhase_scoped opts env (Or.inr h)),
      fun d => detect_pages_create_of_empty d M hpg⟩

def companyAcme : Company :=
  { name := "Acme", slug := "acme", industry := "", tier := "",
    contact_phone := "", contact_email := "", location := "",
    business_hours := "", website_settings := .obj [] }

def envPullEmpty : PullEnv :=
  { companyInfoRes := .ok companyAcme, pagesListRes := .ok [],
    pageGetRes := fun _ => .error "x", kbSearchRes := .ok [],
    servicesListRes := .ok [], productsListRes := .ok [], now := "t1" }

theorem pull_scoped_manifest_drops_other_kinds_witness :
    ({ company_id := 2, company_name := "Acme", pulled_at := "t1",
       api_url := "api", pages := [], kb := [], services := [],
       products := [] } : Manifest).kb = [] := by
  have h := pull_scoped_manifest_drops_other_kinds
    { pagesOnly := true, kbOnly := false, force := false }
    { loggedIn := true, companyId := some 2, apiUrl := "api" }
    { manifestFile := none, gitignoreExists := true } envPullEmpty
    { company_id := 2, company_name := "Acme", pulled_at := "t1",
      api_url := "api", pages := [], kb := [], services := [], products := [] }
    rfl
  exact (h.1 rfl).1

/-- C5 counterexample: a pull invoked *with* `--force` on a directory whose
manifest belongs to company 9 while the session is company 2 does not
abort — it completes, makes remote calls and writes files, because the
ownership check only runs when `--force` is absent. -/
theorem pull_force_bypasses_ownership_check :
    (pullCommand { pagesOnly := false, kbOnly := false, force := true }
        { loggedIn := true, companyId := some 2, apiUrl := "api" }
        { manifestFile := some manC3, gitignoreExists := true }
        envPullEmpty).outcome = .completed ∧
    (pullCommand { pagesOnly := false, kbOnly := false, force := true }
        { loggedIn := true, companyId := some 2, apiUrl := "api" }
        { manifestFile := some manC3, gitignoreExists := true }
        envPullEmpty).calls =
      [.companyInfo, .pagesList, .kbSearch, .servicesList, .productsList] ∧
    (pullCommand { pagesOnly := false, kbOnly := false, force := true }
        { loggedIn := true, companyId := some 2, apiUrl := "api" }
        { manifestFile := some manC3, gitignoreExists := true }
        envPullEmpty).writes.length = 2 ∧
    manC3.company_id ≠ (2 : Int) := by
  exact ⟨rfl, rfl, rfl, by decide⟩

/-- C5 amended: the ownership check runs only when `--force` is absent; in
that case a pull over a directory whose Manifest belongs to a different
company aborts before any remote call or local write, surfacing both IDs.
With `--force` the check is bypassed and the pull proceeds. -/
theorem pull_foreign_manifest_refused_without_force (opts : PullOptions)
    (sess : Session) (fs : PullFS) (env : PullEnv) (ex : Manifest) (cid : Int)
    (hlog : sess.loggedIn = true) (hcid : sess.companyId = some cid)
    (hnz : cid ≠ 0) (hforce : opts.force = false)
    (hman : fs.manifestFile = some ex) (hmm : ex.company_id ≠ cid) :
    pullCommand opts sess fs env =
      ⟨.refusedForeign ex.company_id cid, [], [], none, 0,
       none, none, none, none⟩ := by
  unfold pullCommand
  rw [hcid, hman, hforce]
  simp [hlog, hnz, hmm]

theorem pull_foreign_manifest_refused_without_force_witness :
    pullCommand { pagesOnly := false, kbOnly := false, force := false }
        { loggedIn := true, companyId := some 2, apiUrl := "api" }
        { manifestFile := some manC3, gitignoreExists := true } envPullEmpty =
      ⟨.refusedForeign 9 2, [], [], none, 0, none, none, none, none⟩ := by
  have h := pull_foreign_manifest_refused_without_force
    { pagesOnly := false, kbOnly := false, force := false }
    { loggedIn := true, companyId := some 2, apiUrl := "api" }
    { manifestFile := some manC3, gitignoreExists := true } envPullEmpty
    manC3 2 rfl rfl (by decide) rfl rfl (by decide)
  simpa using h

/-! ## Characterization of the dispatch loops -/

/-- The remote call one KB change record gives rise to (both outcome
branches of the loop body attempt the same call). -/
def kbCallOf (kc : KbChange) : RemoteCall :=
  if kc.action = .update ∧ kbIdTruthy kc.data.id then
    .kbUpdate (kc.data.id.getD 0) kc.data.title kc.data.content kc.data.category
  else .kbCreate kc.data.title kc.data.content kc.data.category

/-- The remote call one page change record gives rise to, as a function of
the manifest entry for its file at dispatch time. -/
def pageCallOfEntry (entry : Option PageEntry) (pc : PageChange) : RemoteCall :=
  match entry with
  | some e =>
    if pc.action = .update ∧ e.id ≠ 0 then
      .pageUpdate e.id (buildPageUpdateData pc.data)
    else .pageCreate (buildPageCreateData pc.file pc.data)
  | none => .pageCreate (buildPageCreateData pc.file pc.data)

def pageCallOf (m : Manifest) (pc : PageChange) : RemoteCall :=
  pageCallOfEntry (m.pages.lookup pc.file) pc

theorem pushKbRecord_calls (env : PushEnv) (st : DispatchSt) (kc : KbChange) :
    (pushKbRecord env st kc).calls = st.calls ++ [kbCallOf kc] := by
  by_cases h : kc.action = .update ∧ kbIdTruthy kc.data.id
  · simp only [pushKbRecord, kbCallOf, if_pos h]
    cases env.kbUpdateErr kc.file <;> rfl
  · simp only [pushKbRecord, kbCallOf, pushKbCreate, if_neg h]
    cases env.kbCreateRes kc.file <;> rfl

theorem pushKbRecord_manifest_pages (env : PushEnv) (st : DispatchSt)
    (kc : KbChange) :
    (pushKbRecord env st kc).manifest.pages = st.manifest.pages := by
  by_cases h : kc.action = .update ∧ kbIdTruthy kc.data.id
  · simp only [pushKbRecord, if_pos h]
    cases env.kbUpdateErr kc.file <;> rfl
  · simp only [pushKbRecord, pushKbCreate, if_neg h]
    cases env.kbCreateRes kc.file <;> rfl

theorem pushKbRecord_manifest_kb_lookup_ne (env : PushEnv) (st : DispatchSt)
    (kc : KbChange) (f : String) (h2 : f ≠ kc.file) :
    (pushKbRecord env st kc).manifest.kb.lookup f = st.manifest.kb.lookup f := by
  by_cases h : kc.action = .update ∧ kbIdTruthy kc.data.id
  · simp only [pushKbRecord, if_pos h]
    cases env.kbUpdateErr kc.file <;> rfl
  · simp only [pushKbRecord, pushKbCreate, if_neg h]
    cases env.kbCreateRes kc.file with
    | ok newId => exact assocSet_lookup_ne _ _ _ _ h2
    | error msg => rfl

theorem pushPageRecord_calls (env : PushEnv) (st : DispatchSt) (pc : PageChange) :
    (pushPageRecord env st pc).calls = st.calls ++ [pageCallOf st.manifest pc] := by
  rcases hl : st.manifest.pages.lookup pc.file with _ | e <;>
    simp only [pushPageRecord, pageCallOf, pageCallOfEntry, pushPageCreate, hl]
  · rcases env.pageCreateRes pc.file with msg | ⟨newId, respSlug⟩ <;> rfl
  · by_cases h : pc.action = .update ∧ e.id ≠ 0
    · simp only [if_pos h]
      cases env.pageUpdateErr pc.file <;> rfl
    · simp only [if_neg h]
      rcases env.pageCreateRes pc.file with msg | ⟨newId, respSlug⟩ <;> rfl

theorem pushPageRecord_manifest_kb (env : PushEnv) (st : DispatchSt)
    (pc : PageChange) :
    (pushPageRecord env st pc).manifest.kb = st.manifest.kb := by
  rcases hl : st.manifest.pages.lookup pc.file with _ | e <;>
    simp only [pushPageRecord, pushPageCreate, hl]
  · rcases env.pageCreateRes pc.file with msg | ⟨newId, respSlug⟩ <;> rfl
  · by_cases h : pc.action = .update ∧ e.id ≠ 0
    · simp only [if_pos h]
      cases env.pageUpdateErr pc.file <;> rfl
    · simp only [if_neg h]
      rcases env.pageCreateRes pc.file with msg | ⟨newId, respSlug⟩ <;> rfl

theorem pushPageRecord_manifest_pages_lookup_ne (env : PushEnv)
    (st : DispatchSt) (pc : PageChange) (f : String) (h2 : f ≠ pc.file) :
    (pushPageRecord env st pc).manifest.pages.lookup f =
      st.manifest.pages.lookup f := by
  rcases hl : st.manifest.pages.lookup pc.file with _ | e <;>
    simp only [pushPageRecord, pushPageCreate, hl]
  · rcases env.pageCreateRes pc.file with msg | ⟨newId, respSlug⟩
    · rfl
    · exact assocSet_lookup_ne _ _ _ _ h2
  · by_cases h : pc.action = .update ∧ e.id ≠ 0
    · simp only [if_pos h]
      cases env.pageUpdateErr pc.file <;> rfl
    · simp only [if_neg h]
      rcases env.pageCreateRes pc.file with msg | ⟨newId, respSlug⟩
      · rfl
      · exact assocSet_lookup_ne _ _ _ _ h2

theorem kbFold_calls (env : PushEnv) (l : List KbChange) (st : DispatchSt) :
    (l.foldl (pushKbRecord env) st).calls = st.calls ++ l.map kbCallOf := by
  induction l generalizing st with
  | nil => simp
  | cons kc t ih =>
    rw [List.foldl_cons, ih, pushKbRecord_calls]
    simp

theorem kbFold_manifest_pages (env : PushEnv) (l : List KbChange)
    (st : DispatchSt) :
    (l.foldl (pushKbRecord env) st).manifest.pages = st.manifest.pages := by
  induction l generalizing st with
  | nil => rfl
  | cons kc t ih => rw [List.foldl_cons, ih, pushKbRecord_manifest_pages]

theorem kbFold_manifest_kb_lookup (env : PushEnv) (l : List KbChange)
    (st : DispatchSt) (f : String) (h : ∀ kc ∈ l, kc.file ≠ f) :
    (l.foldl (pushKbRecord env) st).manifest.kb.lookup f =
      st.manifest.kb.lookup f := by
  induction l generalizing st with
  | nil => rfl
  | cons kc t ih =>
    rw [List.foldl_cons, ih _ (fun x hx => h x (List.mem_cons_of_mem _ hx)),
        pushKbRecord_manifest_kb_lookup_ne]
    exact Ne.symm (h kc (List.mem_cons_self _ _))

theorem pagesFold_manifest_kb (env : PushEnv) (l : List PageChange)
    (st : DispatchSt) :
    (l.foldl (pushPageRecord env) st).manifest.kb = st.manifest.kb := by
  induction l generalizing st with
  | nil => rfl
  | cons pc t ih => rw [List.foldl_cons, ih, pushPageRecord_manifest_kb]

theorem pagesFold_manifest_pages_lookup (env : PushEnv) (l : List PageChange)
    (st : DispatchSt) (f : String) (h : ∀ pc ∈ l, pc.file ≠ f) :
    (l.foldl (pushPageRecord env) st).manifest.pages.lookup f =
      st.manifest.pages.lookup f := by
  induction l generalizing st with
  | nil => rfl
  | cons pc t ih =>
    rw [List.foldl_cons, ih _ (fun x hx => h x (List.mem_cons_of_mem _ hx)),
        pushPageRecord_manifest_pages_lookup_ne]
    exact Ne.symm (h pc (List.mem_cons_self _ _))

/-- Calls of the pages loop, with the manifest entries resolved against the
initial manifest; needs distinct filenames so that a create for one record
cannot change the entry a later record resolves. -/
theorem pagesFold_calls (env : PushEnv) (mOrig : Manifest)
    (l : List PageChange) (st : DispatchSt)
    (hnd : (l.map PageChange.file).Nodup)
    (hag : ∀ pc ∈ l, st.manifest.pages.lookup pc.file = mOrig.pages.lookup pc.file) :
    (l.foldl (pushPageRecord env) st).calls = st.calls ++ l.map (pageCallOf mOrig) := by
  induction l generalizing st with
  | nil => simp
  | cons pc t ih =>
    rw [List.foldl_cons]
    have hcons : ((pc :: t).map PageChange.file) =
        pc.file :: t.map PageChange.file := rfl
    rw [hcons] at hnd
    have hnotin : pc.file ∉ t.map PageChange.file := (List.nodup_cons.mp hnd).1
    have hag' : ∀ pc' ∈ t,
        (pushPageRecord env st pc).manifest.pages.lookup pc'.file =
          mOrig.pages.lookup pc'.file := by
      intro pc' hp
      have hne : pc'.file ≠ pc.file := by
        intro hEq
        exact hnotin (hEq ▸ List.mem_map_of_mem PageChange.file hp)
      rw [pushPageRecord_manifest_pages_lookup_ne env st pc pc'.file hne]
      exact hag pc' (List.mem_cons_of_mem _ hp)
    rw [ih _ (List.nodup_cons.mp hnd).2 hag', pushPageRecord_calls]
    have hcongr : pageCallOf st.manifest pc = pageCallOf mOrig pc := by
      unfold pageCallOf
      rw [hag pc (List.mem_cons_self _ _)]
    rw [hcongr]
    simp

/-- Membership elimination for the pages loop without any distinctness
assumption: every call in the trace is some record's call under some
dispatch-time manifest. -/
theorem mem_calls_pagesFold (env : PushEnv) (l : List PageChange)
    (st : DispatchSt) (c : RemoteCall)
    (hc : c ∈ (l.foldl (pushPageRecord env) st).calls) :
    c ∈ st.calls ∨ ∃ m' pc, pc ∈ l ∧ c = pageCallOf m' pc := by
  induction l generalizing st with
  | nil => exact Or.inl hc
  | cons pc t ih =>
    rw [List.foldl_cons] at hc
    rcases ih _ hc with h | ⟨m', pc', hp, rfl⟩
    · rw [pushPageRecord_calls] at h
      rcases List.mem_append.mp h with h | h
      · exact Or.inl h
      · exact Or.inr ⟨st.manifest, pc, List.mem_cons_self _ _,
          List.mem_singleton.mp h⟩
    · exact Or.inr ⟨m', pc', List.mem_cons_of_mem _ hp, rfl⟩

theorem mem_calls_pushSettings (env : PushEnv) (st : DispatchSt) (data : Json)
    (c : RemoteCall) (hc : c ∈ (pushSettings env st data).calls) :
    c ∈ st.calls ∨ c = .updateWebsiteSettings data := by
  unfold pushSettings at hc
  cases henv : env.settingsErr <;> rw [henv] at hc <;> simp at hc <;>
    rcases hc with hc | hc <;> simp [hc]

theorem pushSettings_manifest (env : PushEnv) (st : DispatchSt) (data : Json) :
    (pushSettings env st data).manifest = st.manifest := by
  unfold pushSettings
  cases env.settingsErr <;> rfl

theorem pageCallOf_not_delete (m' : Manifest) (pc : PageChange) :
    (pageCallOf m' pc).isDelete = false := by
  unfold pageCallOf pageCallOfEntry
  rcases m'.pages.lookup pc.file with _ | e
  · rfl
  · by_cases h : pc.action = .update ∧ e.id ≠ 0 <;>
      simp [h, RemoteCall.isDelete]

theorem kbCallOf_not_delete (kc : KbChange) :
    (kbCallOf kc).isDelete = false := by
  unfold kbCallOf
  by_cases h : kc.action = .update ∧ kbIdTruthy kc.data.id <;>
    simp [h, RemoteCall.isDelete]

/-! ## Phase-level lemmas for the dispatcher -/

theorem mem_calls_pagesPhase (opts : PushOptions) (env : PushEnv)
    (changes : ChangeSet) (st : DispatchSt) (c : RemoteCall)
    (hc : c ∈ (pagesPhase opts env changes st).calls) :
    c ∈ st.calls ∨ ∃ m' pc, pc ∈ changes.pages ∧ c = pageCallOf m' pc := by
  unfold pagesPhase at hc
  split at hc
  · exact mem_calls_pagesFold env _ _ _ hc
  · exact Or.inl hc

theorem mem_calls_kbPhase (opts : PushOptions) (env : PushEnv)
    (changes : ChangeSet) (st : DispatchSt) (c : RemoteCall)
    (hc : c ∈ (kbPhase opts env changes st).calls) :
    c ∈ st.calls ∨ ∃ kc ∈ changes.kb, c = kbCallOf kc := by
  unfold kbPhase at hc
  split at hc
  · rw [kbFold_calls] at hc
    rcases List.mem_append.mp hc with h | h
    · exact Or.inl h
    · simp only [List.mem_map] at h
      obtain ⟨kc, hkc, rfl⟩ := h
      exact Or.inr ⟨kc, hkc, rfl⟩
  · exact Or.inl hc

theorem mem_calls_settingsPhase (opts : PushOptions) (env : PushEnv)
    (changes : ChangeSet) (st : DispatchSt) (c : RemoteCall)
    (hc : c ∈ (settingsPhase opts env changes st).calls) :
    c ∈ st.calls ∨ c = .updateWebsiteSettings changes.settings.data := by
  unfold settingsPhase at hc
  split at hc
  · exact mem_calls_pushSettings env st _ c hc
  · exact Or.inl hc

theorem mem_calls_pushDispatch (opts : PushOptions) (env : PushEnv)
    (m : Manifest) (changes : ChangeSet) (c : RemoteCall)
    (hc : c ∈ (pushDispatch opts env m changes).calls) :
    (∃ m' pc, pc ∈ changes.pages ∧ c = pageCallOf m' pc) ∨
    (∃ kc ∈ changes.kb, c = kbCallOf kc) ∨
    c = .updateWebsiteSettings changes.settings.data := by
  unfold pushDispatch at hc
  rcases mem_calls_settingsPhase _ _ _ _ _ hc with hc | hc
  · rcases mem_calls_kbPhase _ _ _ _ _ hc with hc | hc
    · rcases mem_calls_pagesPhase _ _ _ _ _ hc with hc | hc
      · simp at hc
      · exact Or.inl hc
    · exact Or.inr (Or.inl hc)
  · exact Or.inr (Or.inr hc)

theorem kbPhase_calls_mono (opts : PushOptions) (env : PushEnv)
    (changes : ChangeSet) (st : DispatchSt) (c : RemoteCall)
    (hc : c ∈ st.calls) : c ∈ (kbPhase opts env changes st).calls := by
  unfold kbPhase
  split
  · rw [kbFold_calls]; exact List.mem_append_left _ hc
  · exact hc

theorem settingsPhase_calls_mono (opts : PushOptions) (env : PushEnv)
    (changes : ChangeSet) (st : DispatchSt) (c : RemoteCall)
    (hc : c ∈ st.calls) : c ∈ (settingsPhase opts env changes st).calls := by
  unfold settingsPhase
  split
  · unfold pushSettings
    cases env.settingsErr <;> exact List.mem_append_left _ hc
  · exact hc

theorem pagesPhase_manifest_kb (opts : PushOptions) (env : PushEnv)
    (changes : ChangeSet) (st : DispatchSt) :
    (pagesPhase opts env changes st).manifest.kb = st.manifest.kb := by
  unfold pagesPhase
  split
  · exact pagesFold_manifest_kb env _ st
  · rfl

theorem pagesPhase_manifest_pages_lookup (opts : PushOptions) (env : PushEnv)
    (changes : ChangeSet) (st : DispatchSt) (f : String)
    (h : ∀ pc ∈ changes.pages, pc.file ≠ f) :
    (pagesPhase opts env changes st).manifest.pages.lookup f =
      st.manifest.pages.lookup f := by
  unfold pagesPhase
  split
  · exact pagesFold_manifest_pages_lookup env _ st f h
  · rfl

theorem kbPhase_manifest_pages (opts : PushOptions) (env : PushEnv)
    (changes : ChangeSet) (st : DispatchSt) :
    (kbPhase opts env changes st).manifest.pages = st.manifest.pages := by
  unfold kbPhase
  split
  · exact kbFold_manifest_pages env _ st
  · rfl

theorem kbPhase_manifest_kb_lookup (opts : PushOptions) (env : PushEnv)
    (changes : ChangeSet) (st : DispatchSt) (f : String)
    (h : ∀ kc ∈ changes.kb, kc.file ≠ f) :
    (kbPhase opts env changes st).manifest.kb.lookup f =
      st.manifest.kb.lookup f := by
  unfold kbPhase
  split
  · exact kbFold_manifest_kb_lookup env _ st f h
  · rfl

theorem settingsPhase_manifest (opts : PushOptions) (env : PushEnv)
    (changes : ChangeSet) (st : DispatchSt) :
    (settingsPhase opts env changes st).manifest = st.manifest := by
  unfold settingsPhase
  split
  · exact pushSettings_manifest env st _
  · rfl

theorem pushDispatch_manifest_pages_lookup (opts : PushOptions) (env : PushEnv)
    (m : Manifest) (changes : ChangeSet) (f : String)
    (hp : ∀ pc ∈ changes.pages, pc.file ≠ f) :
    (pushDispatch opts env m changes).manifest.pages.lookup f =
      m.pages.lookup f := by
  unfold pushDispatch
  rw [settingsPhase_manifest, kbPhase_manifest_pages,
    pagesPhase_manifest_pages_lookup opts env changes _ f hp]

theorem pushDispatch_manifest_kb_lookup (opts : PushOptions) (env : PushEnv)
    (m : Manifest) (changes : ChangeSet) (f : String)
    (hk : ∀ kc ∈ changes.kb, kc.file ≠ f) :
    (pushDispatch opts env m changes).manifest.kb.lookup f =
      m.kb.lookup f := by
  unfold pushDispatch
  rw [settingsPhase_manifest, kbPhase_manifest_kb_lookup opts env changes _ f hk,
    pagesPhase_manifest_kb]

/-- Every push invocation either exits early with an empty call trace or
runs the dispatcher on the loaded manifest and detected changes. -/
theorem pushCommand_calls_cases (opts : PushOptions) (sess : Session)
    (mf : Option Manifest) (d : Dir) (env : PushEnv) :
    (pushCommand opts sess mf d env).calls = [] ∨
    ∃ m', mf = some m' ∧ (pushCommand opts sess mf d env).calls =
      (pushDispatch opts env m' (detectChanges d m')).calls := by
  simp only [pushCommand]
  repeat' first
    | exact Or.inl rfl
    | exact Or.inr ⟨_, rfl, rfl⟩
    | split

/-- Every push invocation either leaves the manifest file alone or writes
the dispatcher's final manifest with a refreshed `pulled_at`. -/
theorem pushCommand_manifestWrite_cases (opts : PushOptions) (sess : Session)
    (mf : Option Manifest) (d : Dir) (env : PushEnv) :
    (pushCommand opts sess mf d env).manifestWrite = none ∨
    ∃ m', mf = some m' ∧ (pushCommand opts sess mf d env).manifestWrite =
      some { (pushDispatch opts env m' (detectChanges d m')).manifest with
             pulled_at := env.now } := by
  simp only [pushCommand]
  repeat' first
    | exact Or.inl rfl
    | exact Or.inr ⟨_, rfl, rfl⟩
    | split

theorem pageRecOf_file (d : Dir) (m : Manifest) (f : String) :
    (pageRecOf d m f).file = f := by
  unfold pageRecOf
  rcases m.pages.lookup f <;> rfl

theorem kbRecOf_file (d : Dir) (m : Manifest) (f : String) :
    (kbRecOf d m f).file = f := by
  unfold kbRecOf
  rcases m.kb.lookup f <;> rfl

/-- C4: a Manifest entry whose local file is gone yields no Change Record
for that filename, push attempts no remote delete call whatsoever, and the
stale entry survives unchanged in any manifest push writes back. -/
theorem push_never_deletes (opts : PushOptions) (sess : Session) (m : Manifest)
    (d : Dir) (env : PushEnv) (f : String)
    (hstale : (m.pages.lookup f).isSome ∨ (m.kb.lookup f).isSome)
    (hpf : f ∉ pagesListing d) (hkf : f ∉ kbListing d) :
    (∀ pc ∈ (detectChanges d m).pages, pc.file ≠ f) ∧
    (∀ kc ∈ (detectChanges d m).kb, kc.file ≠ f) ∧
    (∀ c ∈ (pushCommand opts sess (some m) d env).calls, c.isDelete = false) ∧
    (∀ mw, (pushCommand opts sess (some m) d env).manifestWrite = some mw →
        mw.pages.lookup f = m.pages.lookup f ∧
        mw.kb.lookup f = m.kb.lookup f) := by
  have hprec : ∀ pc ∈ (detectChanges d m).pages, pc.file ≠ f := by
    intro pc hpc
    rw [detectChanges_eq] at hpc
    simp only [List.mem_map] at hpc
    obtain ⟨f', hf', rfl⟩ := hpc
    rw [pageRecOf_file]
    intro h
    exact hpf (h ▸ hf')
  have hkrec : ∀ kc ∈ (detectChanges d m).kb, kc.file ≠ f := by
    intro kc hkc
    rw [detectChanges_eq] at hkc
    simp only [List.mem_map] at hkc
    obtain ⟨f', hf', rfl⟩ := hkc
    rw [kbRecOf_file]
    intro h
    exact hkf (h ▸ hf')
  refine ⟨hprec, hkrec, ?_, ?_⟩
  · intro c hc
    rcases pushCommand_calls_cases opts sess (some m) d env with hcl | ⟨m', hm', hcl⟩
    · rw [hcl] at hc; simp at hc
    · obtain rfl : m = m' := Option.some.inj hm'
      rw [hcl] at hc
      rcases mem_calls_pushDispatch _ _ _ _ _ hc with ⟨m2, pc, _, rfl⟩ | ⟨kc, _, rfl⟩ | rfl
      · exact pageCallOf_not_delete m2 pc
      · exact kbCallOf_not_delete kc
      · rfl
  · intro mw hmw
    rcases pushCommand_manifestWrite_cases opts sess (some m) d env with hw | ⟨m', hm', hw⟩
    · rw [hw] at hmw; simp at hmw
    · obtain rfl : m = m' := Option.some.inj hm'
      rw [hw] at hmw
      obtain rfl := Option.some.inj hmw
      constructor
      · exact pushDispatch_manifest_pages_lookup opts env m _ f hprec
      · exact pushDispatch_manifest_kb_lookup opts env m _ f hkrec

def manC4 : Manifest :=
  { company_id := 1, company_name := "Acme", pulled_at := "t0", api_url := "u",
    pages := [("gone.json", ⟨5, "gone", "t1"⟩)], kb := [], services := [],
    products := [] }

theorem push_never_deletes_witness :
    (∀ pc ∈ (detectChanges dirEmpty manC4).pages, pc.file ≠ "gone.json") ∧
    (∀ kc ∈ (detectChanges dirEmpty manC4).kb, kc.file ≠ "gone.json") ∧
    (∀ c ∈ (pushCommand optsPushDefault sessC3 (some manC4) dirEmpty
        envPushInert).calls, c.isDelete = false) ∧
    (∀ mw, (pushCommand optsPushDefault sessC3 (some manC4) dirEmpty
        envPushInert).manifestWrite = some mw →
      mw.pages.lookup "gone.json" = manC4.pages.lookup "gone.json" ∧
      mw.kb.lookup "gone.json" = manC4.kb.lookup "gone.json") := by
  exact push_never_deletes optsPushDefault sessC3 manC4 dirEmpty envPushInert
    "gone.json" (Or.inl (by decide)) (by decide) (by decide)

theorem kb_call_mem_kbPhase (opts : PushOptions) (env : PushEnv)
    (changes : ChangeSet) (st : DispatchSt) (kc : KbChange)
    (hpo : opts.pagesOnly = false) (hso : opts.settingsOnly = false)
    (hkc : kc ∈ changes.kb) :
    kbCallOf kc ∈ (kbPhase opts env changes st).calls := by
  unfold kbPhase
  have hne : changes.kb.isEmpty = false := by
    cases hl : changes.kb
    · rw [hl] at hkc; simp at hkc
    · rfl
  rw [if_pos (by simp [hpo, hso, hne])]
  rw [kbFold_calls]
  exact List.mem_append_right _ (List.mem_map_of_mem _ hkc)

/-- The fully reduced result of a push that passes every gate and reaches
the dispatcher. -/
theorem pushCommand_completed (opts : PushOptions) (sess : Session)
    (m : Manifest) (d : Dir) (env : PushEnv) (cid : Int)
    (hlog : sess.loggedIn = true) (hcid : sess.companyId = some cid)
    (hnz : cid ≠ 0) (hmc : m.company_id = cid)
    (h0 : (detectChanges d m).summary.creates +
        (detectChanges d m).summary.updates +
        (if (detectChanges d m).summary.settings then 1 else 0) ≠ 0)
    (hdry : opts.dryRun = false)
    (hcf : (!opts.yes && !env.confirmAnswer) = false) :
    pushCommand opts sess (some m) d env =
      ⟨.completed (pushDispatch opts env m (detectChanges d m)).pushed
          (pushDispatch opts env m (detectChanges d m)).errors,
       (pushDispatch opts env m (detectChanges d m)).calls,
       some { (pushDispatch opts env m (detectChanges d m)).manifest with
              pulled_at := env.now },
       some (detectChanges d m)⟩ := by
  unfold pushCommand
  rw [hcid]
  simp [hlog, hnz, hmc, h0, hdry, hcf]

/-- C2 amended: for a KB file listed locally whose basename is a key of the
Manifest's kb mapping with a nonzero recorded id, push dispatches the
remote update call with exactly that Manifest id and the parsed file's
title/content/category — the frontmatter `id` plays no role.  (A recorded
id of 0 is falsy in the dispatcher and falls into the create branch; see
the counterexample.) -/
theorem kb_update_uses_manifest_id (opts : PushOptions) (sess : Session)
    (m : Manifest) (d : Dir) (env : PushEnv) (cid : Int) (f : String)
    (e : KbEntry)
    (hlog : sess.loggedIn = true) (hcid : sess.companyId = some cid)
    (hnz : cid ≠ 0) (hmc : m.company_id = cid)
    (hdry : opts.dryRun = false)
    (hconf : opts.yes = true ∨ env.confirmAnswer = true)
    (hpo : opts.pagesOnly = false) (hso : opts.settingsOnly = false)
    (hf : f ∈ kbListing d) (he : m.kb.lookup f = some e) (hid : e.id ≠ 0) :
    RemoteCall.kbUpdate e.id (parseKbMarkdown (d.kbContent f)).title
        (parseKbMarkdown (d.kbContent f)).content
        (parseKbMarkdown (d.kbContent f)).category ∈
      (pushCommand opts sess (some m) d env).calls := by
  have hrec : kbRecOf d m f ∈ (detectChanges d m).kb := by
    rw [detectChanges_eq]
    exact List.mem_map_of_mem _ hf
  have hupd : 0 < updatesCount d m := by
    have hmem : f ∈ (kbListing d).filter (fun f => (m.kb.lookup f).isSome) :=
      List.mem_filter.mpr ⟨hf, by simp [he]⟩
    have h1 : 0 < ((kbListing d).filter
        (fun f => (m.kb.lookup f).isSome)).length :=
      List.length_pos.mpr (List.ne_nil_of_mem hmem)
    unfold updatesCount
    omega
  have h0 : (detectChanges d m).summary.creates +
      (detectChanges d m).summary.updates +
      (if (detectChanges d m).summary.settings then 1 else 0) ≠ 0 := by
    rw [detectChanges_eq]
    simp only
    rcases (settingsWs d).isSome <;> simp <;> omega
  have hcf : (!opts.yes && !env.confirmAnswer) = false := by
    rcases hconf with h | h <;> simp [h]
  rw [pushCommand_completed opts sess m d env cid hlog hcid hnz hmc h0 hdry hcf]
  show _ ∈ (pushDispatch opts env m (detectChanges d m)).calls
  unfold pushDispatch
  apply settingsPhase_calls_mono
  have hmem := kb_call_mem_kbPhase opts env (detectChanges d m)
    (pagesPhase opts env (detectChanges d m) ⟨m, 0, 0, []⟩)
    (kbRecOf d m f) hpo hso hrec
  have hcall : kbCallOf (kbRecOf d m f) =
      RemoteCall.kbUpdate e.id (parseKbMarkdown (d.kbContent f)).title
        (parseKbMarkdown (d.kbContent f)).content
        (parseKbMarkdown (d.kbContent f)).category := by
    unfold kbRecOf kbCallOf
    rw [he]
    simp [kbIdTruthy, hid]
  rw [← hcall]
  exact hmem

def sessOne : Session := { loggedIn := true, companyId := some 1, apiUrl := "u" }

def manC2 : Manifest :=
  { company_id := 1, company_name := "Acme", pulled_at := "t0", api_url := "u",
    pages := [], kb := [("welcome.md", ⟨7, "Welcome"⟩)], services := [],
    products := [] }

def dirC2 : Dir :=
  { pagesDir := none, pageContent := fun _ => .null,
    kbDir := some ["welcome.md"],
    kbContent := fun _ => "---\nid: 999\ntitle: \"Welcome\"\n---\n\nHello\n",
    solidConfig := none }

theorem kb_update_uses_manifest_id_witness :
    RemoteCall.kbUpdate 7
        (parseKbMarkdown "---\nid: 999\ntitle: \"Welcome\"\n---\n\nHello\n").title
        (parseKbMarkdown "---\nid: 999\ntitle: \"Welcome\"\n---\n\nHello\n").content
        (parseKbMarkdown "---\nid: 999\ntitle: \"Welcome\"\n---\n\nHello\n").category ∈
      (pushCommand optsPushDefault sessOne (some manC2) dirC2
        envPushInert).calls := by
  exact kb_update_uses_manifest_id optsPushDefault sessOne manC2 dirC2
    envPushInert 1 "welcome.md" ⟨7, "Welcome"⟩ rfl rfl (by decide) rfl rfl
    (Or.inl rfl) rfl rfl (by decide) rfl (by decide)

def RemoteCall.isKbUpdate : RemoteCall → Bool
  | .kbUpdate _ _ _ _ => true
  | _ => false

def manC2x : Manifest :=
  { company_id := 1, company_name := "Acme", pulled_at := "t0", api_url := "u",
    pages := [], kb := [("a.md", ⟨0, "A"⟩)], services := [], products := [] }

def dirC2x : Dir :=
  { pagesDir := none, pageContent := fun _ => .null, kbDir := some ["a.md"],
    kbContent := fun _ => "body", solidConfig := none }

/-- C2 counterexample: `a.md` *is* a key of the Manifest's kb mapping, with
recorded id 0, yet push dispatches a create call and no update call at all
— the dispatcher tests the id for JavaScript truthiness, so a recorded id
of 0 is not sent to the update endpoint. -/
theorem kb_zero_id_dispatches_create :
    manC2x.kb.lookup "a.md" = some ⟨0, "A"⟩ ∧
    "a.md" ∈ kbListing dirC2x ∧
    (pushCommand optsPushDefault sessOne (some manC2x) dirC2x
        envPushInert).calls = [.kbCreate "Untitled" "body" "general"] ∧
    ((pushCommand optsPushDefault sessOne (some manC2x) dirC2x
        envPushInert).calls.all (fun c => ! c.isKbUpdate)) = true := by
  exact ⟨rfl, by decide, rfl, rfl⟩

/-! ## The sparse page-update payload (C9) -/

/-- The seven fields of a page file the update branch can forward. -/
def editablePageFields : List String :=
  ["title", "slug", "meta_title", "meta_description", "layout_json",
   "is_published", "is_landing_page"]

/-- Which fields the update payload includes, as the code decides it:
`title`, `slug` and `layout_json` by truthiness, the other four by
presence (`!== undefined`). -/
def pageUpdateIncludes (j : Json) (k : String) : Bool :=
  if k = "title" ∨ k = "slug" ∨ k = "layout_json" then
    truthyOpt (j.getField k)
  else (j.getField k).isSome

theorem mem_map_fst_ite_singleton (c : Prop) [Decidable c] (fld : String)
    (v : Json) (k : String) :
    (k ∈ (if c then [(fld, v)] else []).map Prod.fst) ↔ (c ∧ k = fld) := by
  split <;> simp_all

theorem mem_truthy_seg (j : Json) (fld : String) (k : String) (v : Json)
    (h : (k, v) ∈
      (if truthyOpt (j.getField fld) then
        [(fld, (j.getField fld).getD .null)] else [])) :
    k = fld ∧ j.getField fld = some v := by
  by_cases hcond : truthyOpt (j.getField fld) = true
  · rw [if_pos hcond] at h
    simp only [List.mem_singleton, Prod.mk.injEq] at h
    obtain ⟨h1, h2⟩ := h
    subst h2
    refine ⟨h1, ?_⟩
    rcases ho : j.getField fld with _ | x
    · rw [ho] at hcond; simp [truthyOpt] at hcond
    · simp
  · rw [if_neg hcond] at h; simp at h

theorem mem_isSome_seg (j : Json) (fld : String) (k : String) (v : Json)
    (h : (k, v) ∈
      (if (j.getField fld).isSome then
        [(fld, (j.getField fld).getD .null)] else [])) :
    k = fld ∧ j.getField fld = some v := by
  by_cases hcond : (j.getField fld).isSome = true
  · rw [if_pos hcond] at h
    simp only [List.mem_singleton, Prod.mk.injEq] at h
    obtain ⟨h1, h2⟩ := h
    subst h2
    refine ⟨h1, ?_⟩
    rcases ho : j.getField fld with _ | x
    · rw [ho] at hcond; simp at hcond
    · simp
  · rw [if_neg hcond] at h; simp at h

/-- Every pair in the update payload is a field of the local file with its
exact value, and its key is one of the seven editable fields. -/
theorem buildPageUpdateData_mem (j : Json) (k : String) (v : Json)
    (h : (k, v) ∈ buildPageUpdateData j) :
    j.getField k = some v ∧ k ∈ editablePageFields := by
  unfold buildPageUpdateData at h
  simp only [List.mem_append] at h
  rcases h with ((((((h | h) | h) | h) | h) | h) | h)
  · obtain ⟨rfl, hv⟩ := mem_truthy_seg j "title" k v h
    exact ⟨hv, by decide⟩
  · obtain ⟨rfl, hv⟩ := mem_truthy_seg j "slug" k v h
    exact ⟨hv, by decide⟩
  · obtain ⟨rfl, hv⟩ := mem_isSome_seg j "meta_title" k v h
    exact ⟨hv, by decide⟩
  · obtain ⟨rfl, hv⟩ := mem_isSome_seg j "meta_description" k v h
    exact ⟨hv, by decide⟩
  · obtain ⟨rfl, hv⟩ := mem_truthy_seg j "layout_json" k v h
    exact ⟨hv, by decide⟩
  · obtain ⟨rfl, hv⟩ := mem_isSome_seg j "is_published" k v h
    exact ⟨hv, by decide⟩
  · obtain ⟨rfl, hv⟩ := mem_isSome_seg j "is_landing_page" k v h
    exact ⟨hv, by decide⟩

/-- A field key appears in the update payload exactly when the code's
inclusion rule fires for it. -/
theorem buildPageUpdateData_keys (j : Json) (k : String)
    (hk : k ∈ editablePageFields) :
    (k ∈ (buildPageUpdateData j).map Prod.fst) ↔
      pageUpdateIncludes j k = true := by
  unfold buildPageUpdateData pageUpdateIncludes
  simp only [List.map_append, List.mem_append, mem_map_fst_ite_singleton]
  fin_cases hk <;> simp

theorem kbCallOf_ne_pageUpdate (kc : KbChange) (id : Int)
    (data : List (String × Json)) :
    kbCallOf kc ≠ .pageUpdate id data := by
  unfold kbCallOf
  split <;> simp

theorem pageRecOf_data (d : Dir) (m : Manifest) (f : String) :
    (pageRecOf d m f).data = d.pageContent f := by
  unfold pageRecOf
  rcases m.pages.lookup f <;> rfl

theorem detect_pages_files (d : Dir) (m : Manifest) :
    (detectChanges d m).pages.map PageChange.file = pagesListing d := by
  rw [detectChanges_eq]
  simp [List.map_map, Function.comp_def, pageRecOf_file]

theorem pagesPhase_calls (opts : PushOptions) (env : PushEnv)
    (changes : ChangeSet) (st : DispatchSt) (mOrig : Manifest)
    (hnd : (changes.pages.map PageChange.file).Nodup)
    (hag : ∀ pc ∈ changes.pages,
      st.manifest.pages.lookup pc.file = mOrig.pages.lookup pc.file) :
    (pagesPhase opts env changes st).calls = st.calls ∨
    (pagesPhase opts env changes st).calls =
      st.calls ++ changes.pages.map (pageCallOf mOrig) := by
  unfold pagesPhase
  split
  · exact Or.inr (pagesFold_calls env mOrig _ st hnd hag)
  · exact Or.inl rfl

/-- C9 amended: every remote page-update call push dispatches carries the
Manifest-resolved id of a listed file and a sparse payload built from
exactly the fields of the local file the code's inclusion rule selects:
`meta_title`, `meta_description`, `is_published` and `is_landing_page`
when present (non-undefined), but `title`, `slug` and `layout_json` only
when *truthy* — a present-but-falsy value (empty string, null, false, 0)
is omitted; every value sent is the file's value. -/
theorem page_update_payload_sparse (opts : PushOptions) (sess : Session)
    (m : Manifest) (d : Dir) (env : PushEnv) (id : Int)
    (data : List (String × Json))
    (hnd : (pagesListing d).Nodup)
    (hc : RemoteCall.pageUpdate id data ∈
      (pushCommand opts sess (some m) d env).calls) :
    ∃ f entry, f ∈ pagesListing d ∧ m.pages.lookup f = some entry ∧
      entry.id ≠ 0 ∧ id = entry.id ∧
      data = buildPageUpdateData (d.pageContent f) ∧
      (∀ k v, (k, v) ∈ data → (d.pageContent f).getField k = some v ∧
        k ∈ editablePageFields) ∧
      (∀ k, k ∈ editablePageFields →
        ((k ∈ data.map Prod.fst) ↔
          pageUpdateIncludes (d.pageContent f) k = true)) := by
  rcases pushCommand_calls_cases opts sess (some m) d env with hcl | ⟨m', hm', hcl⟩
  · rw [hcl] at hc; simp at hc
  · obtain rfl : m = m' := Option.some.inj hm'
    rw [hcl] at hc
    unfold pushDispatch at hc
    rcases mem_calls_settingsPhase _ _ _ _ _ hc with hc | hceq
    · rcases mem_calls_kbPhase _ _ _ _ _ hc with hc | ⟨kc, _, hceq⟩
      · have hnd' : ((detectChanges d m).pages.map PageChange.file).Nodup := by
          rw [detect_pages_files]; exact hnd
        have hag : ∀ pc ∈ (detectChanges d m).pages,
            (⟨m, 0, 0, []⟩ : DispatchSt).manifest.pages.lookup pc.file =
              m.pages.lookup pc.file := fun _ _ => rfl
        rcases pagesPhase_calls opts env (detectChanges d m) ⟨m, 0, 0, []⟩ m
            hnd' hag with hEq | hEq
        · rw [hEq] at hc; simp at hc
        · rw [hEq] at hc
          simp only [List.nil_append, List.mem_map] at hc
          obtain ⟨pc, hpc, hceq⟩ := hc
          have hpc' := hpc
          rw [detectChanges_eq] at hpc'
          simp only [List.mem_map] at hpc'
          obtain ⟨f, hf, rfl⟩ := hpc'
          unfold pageCallOf pageCallOfEntry at hceq
          rw [pageRecOf_file, pageRecOf_data] at hceq
          split at hceq
          · rename_i entry heq
            split at hceq
            · rename_i hcond
              obtain ⟨hid, hdata⟩ := RemoteCall.pageUpdate.inj hceq
              refine ⟨f, entry, hf, heq, hcond.2, hid.symm, hdata.symm, ?_, ?_⟩
              · intro k v hkv
                rw [← hdata] at hkv
                exact buildPageUpdateData_mem (d.pageContent f) k v hkv
              · intro k hk
                rw [← hdata]
                exact buildPageUpdateData_keys (d.pageContent f) k hk
            · simp at hceq
          · simp at hceq
      · exact absurd hceq.symm (kbCallOf_ne_pageUpdate kc id data)
    · simp at hceq

def manC9 : Manifest :=
  { company_id := 1, company_name := "Acme", pulled_at := "t0", api_url := "u",
    pages := [("home.json", ⟨5, "home", "t1"⟩)], kb := [], services := [],
    products := [] }

def dirC9 : Dir :=
  { pagesDir := some ["home.json"],
    pageContent := fun _ => .obj [("title", .str "")],
    kbDir := none, kbContent := fun _ => "", solidConfig := none }

theorem page_update_payload_sparse_witness :
    ∃ f entry, f ∈ pagesListing dirC9 ∧
      manC9.pages.lookup f = some entry ∧ entry.id ≠ 0 ∧ (5 : Int) = entry.id ∧
      ([] : List (String × Json)) = buildPageUpdateData (dirC9.pageContent f) ∧
      (∀ k v, (k, v) ∈ ([] : List (String × Json)) →
        (dirC9.pageContent f).getField k = some v ∧ k ∈ editablePageFields) ∧
      (∀ k, k ∈ editablePageFields →
        ((k ∈ ([] : List (String × Json)).map Prod.fst) ↔
          pageUpdateIncludes (dirC9.pageContent f) k = true)) := by
  have hcalls : (pushCommand optsPushDefault sessOne (some manC9) dirC9
      envPushInert).calls = [.pageUpdate 5 []] := rfl
  have hmem : RemoteCall.pageUpdate 5 [] ∈
      (pushCommand optsPushDefault sessOne (some manC9) dirC9
        envPushInert).calls := by
    rw [hcalls]
    exact List.mem_singleton.mpr rfl
  exact page_update_payload_sparse optsPushDefault sessOne manC9 dirC9
    envPushInert 5 [] (by decide) hmem

/-- C9 counterexample: `home.json` carries `title: ""` — the field is
present and non-undefined in the local file — yet the dispatched update
payload is empty, because the code includes `title` only when truthy.
This refutes "exactly those editable fields present and non-undefined". -/
theorem page_update_omits_empty_title :
    (pushCommand optsPushDefault sessOne (some manC9) dirC9
        envPushInert).calls = [.pageUpdate 5 []] ∧
    ((Json.obj [("title", .str "")]).getField "title").isSome = true ∧
    "title" ∉ ([] : List (String × Json)).map Prod.fst := by
  refine ⟨rfl, rfl, by simp⟩

/-! ## Partial-failure behaviour of pull (C6) -/

def isPageWrite : String × FileBlob → Bool
  | (_, .pageFile _) => true
  | _ => false

theorem pullPageFold_spec (env : PullEnv) (l : List PageSummary)
    (acc : PagesAcc) :
    ((l.foldl (pullPageStep env) acc).writes.length =
      acc.writes.length +
        (l.filter (fun q => (env.pageGetRes q.id).isOk)).length) ∧
    ((l.foldl (pullPageStep env) acc).count =
      acc.count + (l.filter (fun q => (env.pageGetRes q.id).isOk)).length) ∧
    (∀ w ∈ (l.foldl (pullPageStep env) acc).writes,
      w ∈ acc.writes ∨ isPageWrite w = true) := by
  induction l generalizing acc with
  | nil => exact ⟨by simp, by simp, fun w hw => Or.inl hw⟩
  | cons p t ih =>
    rw [List.foldl_cons]
    rcases hres : env.pageGetRes p.id with msg | pd
    · have hstep : pullPageStep env acc p = { acc with calls := acc.calls ++ [.pageGet p.id] } := by
        unfold pullPageStep
        rw [hres]
      rw [hstep]
      obtain ⟨h1, h2, h3⟩ := ih { acc with calls := acc.calls ++ [.pageGet p.id] }
      refine ⟨?_, ?_, ?_⟩
      · rw [h1]; simp [List.filter_cons, hres, Except.isOk, Except.toBool]
      · rw [h2]; simp [List.filter_cons, hres, Except.isOk, Except.toBool]
      · exact h3
    · have hstep : pullPageStep env acc p =
          { calls := acc.calls ++ [.pageGet p.id],
            writes := acc.writes ++
              [("pages/" ++ ((if pd.slug ≠ "" then pd.slug else slugify pd.title) ++ ".json"),
                .pageFile pd)],
            entries := assocSet acc.entries
              ((if pd.slug ≠ "" then pd.slug else slugify pd.title) ++ ".json")
              ⟨pd.id, pd.slug, if pd.updated_at ≠ "" then pd.updated_at else env.now⟩,
            count := acc.count + 1 } := by
        unfold pullPageStep
        rw [hres]
      rw [hstep]
      obtain ⟨h1, h2, h3⟩ := ih _
      refine ⟨?_, ?_, ?_⟩
      · rw [h1]; simp [List.filter_cons, hres, Except.isOk, Except.toBool]; omega
      · rw [h2]; simp [List.filter_cons, hres, Except.isOk, Except.toBool]; omega
      · intro w hw
        rcases h3 w hw with hin | hpw
        · rcases List.mem_append.mp hin with hin | hin
          · exact Or.inl hin
          · right
            rcases List.mem_singleton.mp hin with rfl
            rfl
        · exact Or.inr hpw

theorem pullKbLoop_writes_kind (entries : List KbRemote) :
    ∀ w ∈ (pullKbLoop entries).1, isPageWrite w = false := by
  unfold pullKbLoop
  suffices h : ∀ (acc : List (String × FileBlob) × List (String × KbEntry)),
      (∀ w ∈ acc.1, isPageWrite w = false) →
      ∀ w ∈ (entries.foldl _ acc).1, isPageWrite w = false by
    exact h ([], []) (by simp)
  induction entries with
  | nil => intro acc hacc; exact hacc
  | cons e t ih =>
    intro acc hacc
    rw [List.foldl_cons]
    apply ih
    intro w hw
    rcases List.mem_append.mp hw with hin | hin
    · exact hacc w hin
    · rcases List.mem_singleton.mp hin with rfl
      rfl

theorem pullServicesLoop_writes_kind (items : List SvcRemote) :
    ∀ w ∈ (pullServicesLoop items).1, isPageWrite w = false := by
  unfold pullServicesLoop
  suffices h : ∀ (acc : List (String × FileBlob) × List (String × SvcEntry)),
      (∀ w ∈ acc.1, isPageWrite w = false) →
      ∀ w ∈ (items.foldl _ acc).1, isPageWrite w = false by
    exact h ([], []) (by simp)
  induction items with
  | nil => intro acc hacc; exact hacc
  | cons e t ih =>
    intro acc hacc
    rw [List.foldl_cons]
    apply ih
    intro w hw
    rcases List.mem_append.mp hw with hin | hin
    · exact hacc w hin
    · rcases List.mem_singleton.mp hin with rfl
      rfl

theorem pullProductsLoop_writes_kind (items : List ProdRemote) :
    ∀ w ∈ (pullProductsLoop items).1, isPageWrite w = false := by
  unfold pullProductsLoop
  suffices h : ∀ (acc : List (String × FileBlob) × List (String × ProdEntry)),
      (∀ w ∈ acc.1, isPageWrite w = false) →
      ∀ w ∈ (items.foldl _ acc).1, isPageWrite w = false by
    exact h ([], []) (by simp)
  induction items with
  | nil => intro acc hacc; exact hacc
  | cons e t ih =>
    intro acc hacc
    rw [List.foldl_cons]
    apply ih
    intro w hw
    rcases List.mem_append.mp hw with hin | hin
    · exact hacc w hin
    · rcases List.mem_singleton.mp hin with rfl
      rfl

theorem pullKbPhase_writes_kind (opts : PullOptions) (env : PullEnv) :
    ∀ w ∈ (pullKbPhase opts env).writes, isPageWrite w = false := by
  unfold pullKbPhase
  split
  · rcases env.kbSearchRes with msg | entries
    · simp
    · exact pullKbLoop_writes_kind entries
  · simp

theorem pullServicesPhase_writes_kind (opts : PullOptions) (env : PullEnv) :
    ∀ w ∈ (pullServicesPhase opts env).writes, isPageWrite w = false := by
  unfold pullServicesPhase
  split
  · rcases env.servicesListRes with msg | items
    · simp
    · exact pullServicesLoop_writes_kind items
  · simp

theorem pullProductsPhase_writes_kind (opts : PullOptions) (env : PullEnv) :
    ∀ w ∈ (pullProductsPhase opts env).writes, isPageWrite w = false := by
  unfold pullProductsPhase
  split
  · rcases env.productsListRes with msg | items
    · simp
    · exact pullProductsLoop_writes_kind items
  · simp

/-- When the gates pass, pull runs the main body. -/
theorem pullCommand_run (opts : PullOptions) (sess : Session) (fs : PullFS)
    (env : PullEnv) (cid : Int)
    (hlog : sess.loggedIn = true) (hcid : sess.companyId = some cid)
    (hnz : cid ≠ 0)
    (hok : fs.manifestFile = none ∨ opts.force = true ∨
      ∃ ex, fs.manifestFile = some ex ∧ ex.company_id = cid) :
    pullCommand opts sess fs env = pullBody opts cid sess.apiUrl fs env := by
  rcases hok with h | h | ⟨ex, hex, hexc⟩
  · unfold pullCommand
    rw [hcid, h]
    simp [hlog, hnz]
  · unfold pullCommand
    rw [hcid, h]
    rcases hman : fs.manifestFile with _ | ex <;> simp [hlog, hnz]
  · unfold pullCommand
    rw [hcid, hex]
    rcases hforce : opts.force with _ | _ <;> simp [hlog, hnz, hexc]

/-- C6 amended: a failing per-page detail fetch does not abort the pull —
the pull still completes, writes exactly the successfully fetched pages
(strictly fewer page files than pages listed), still writes a manifest,
and counts only written files in the `Pulled N files` total; but the
per-kind count it reports for pages is the *listed* count, and no count of
skipped items is surfaced. -/
theorem pull_detail_failure_skips_only (opts : PullOptions) (sess : Session)
    (fs : PullFS) (env : PullEnv) (cid : Int) (company : Company)
    (l : List PageSummary) (p : PageSummary) (msg : String)
    (hlog : sess.loggedIn = true) (hcid : sess.companyId = some cid)
    (hnz : cid ≠ 0)
    (hok : fs.manifestFile = none ∨ opts.force = true ∨
      ∃ ex, fs.manifestFile = some ex ∧ ex.company_id = cid)
    (hinfo : env.companyInfoRes = .ok company)
    (hpl : env.pagesListRes = .ok l)
    (hkbflag : opts.kbOnly = false)
    (hp : p ∈ l) (hfail : env.pageGetRes p.id = .error msg) :
    (pullCommand opts sess fs env).outcome = .completed ∧
    ((pullCommand opts sess fs env).writes.filter isPageWrite).length =
      (l.filter (fun q => (env.pageGetRes q.id).isOk)).length ∧
    (l.filter (fun q => (env.pageGetRes q.id).isOk)).length < l.length ∧
    (pullCommand opts sess fs env).reportedPages = some l.length ∧
    (pullCommand opts sess fs env).totalFiles =
      1 + (l.filter (fun q => (env.pageGetRes q.id).isOk)).length +
        (pullKbPhase opts env).count + (pullServicesPhase opts env).count +
        (pullProductsPhase opts env).count ∧
    (pullCommand opts sess fs env).finalManifest.isSome := by
  rw [pullCommand_run opts sess fs env cid hlog hcid hnz hok]
  have hlt : (l.filter (fun q => (env.pageGetRes q.id).isOk)).length < l.length :=
    List.length_filter_lt_length_iff_exists.mpr ⟨p, hp, by simp [hfail, Except.isOk, Except.toBool]⟩
  have hfold := pullPageFold_spec env l ⟨[], [], [], 0⟩
  have hphase : pullPagesPhase opts env =
      ⟨.pagesList :: (l.foldl (pullPageStep env) ⟨[], [], [], 0⟩).calls,
       (l.foldl (pullPageStep env) ⟨[], [], [], 0⟩).writes,
       (l.foldl (pullPageStep env) ⟨[], [], [], 0⟩).entries,
       (l.foldl (pullPageStep env) ⟨[], [], [], 0⟩).count,
       some l.length⟩ := by
    unfold pullPagesPhase
    rw [hpl]
    simp [hkbflag]
  unfold pullBody
  rw [hinfo]
  have hallmem : ∀ w ∈ (l.foldl (pullPageStep env) ⟨[], [], [], 0⟩).writes,
      isPageWrite w = true := by
    intro w hw
    rcases hfold.2.2 w hw with h | h
    · simp at h
    · exact h
  have hppfilter : (l.foldl (pullPageStep env) ⟨[], [], [], 0⟩).writes.filter
      isPageWrite = (l.foldl (pullPageStep env) ⟨[], [], [], 0⟩).writes :=
    List.filter_eq_self.mpr hallmem
  have hkbnil : (pullKbPhase opts env).writes.filter isPageWrite = [] :=
    List.filter_eq_nil_iff.mpr
      (fun w hw => by simp [pullKbPhase_writes_kind opts env w hw])
  have hsvcnil : (pullServicesPhase opts env).writes.filter isPageWrite = [] :=
    List.filter_eq_nil_iff.mpr
      (fun w hw => by simp [pullServicesPhase_writes_kind opts env w hw])
  have hprodnil : (pullProductsPhase opts env).writes.filter isPageWrite = [] :=
    List.filter_eq_nil_iff.mpr
      (fun w hw => by simp [pullProductsPhase_writes_kind opts env w hw])
  have h1 := hfold.1
  have h2 := hfold.2.1
  simp only at h1 h2
  refine ⟨rfl, ?_, hlt, ?_, ?_, rfl⟩
  · show (((([("solid.config.json", FileBlob.configFile company)] ++
        (pullPagesPhase opts env).writes ++ (pullKbPhase opts env).writes ++
        (pullServicesPhase opts env).writes ++
        (pullProductsPhase opts env).writes ++ _ ++ _)).filter
          isPageWrite).length = _)
    rw [hphase]
    rcases fs.gitignoreExists <;>
      simp [List.filter_append, hppfilter, hkbnil, hsvcnil, hprodnil,
        isPageWrite, h1]
  · show (pullPagesPhase opts env).reported = some l.length
    rw [hphase]
  · show 1 + (pullPagesPhase opts env).count + (pullKbPhase opts env).count +
        (pullServicesPhase opts env).count +
        (pullProductsPhase opts env).count = _
    rw [hphase]
    simp only
    omega

def optsPullPlain : PullOptions :=
  { pagesOnly := false, kbOnly := false, force := false }

def sessPull2 : Session := { loggedIn := true, companyId := some 2, apiUrl := "api" }

def fsPullFresh : PullFS := { manifestFile := none, gitignoreExists := true }

def pageDataC6 (i : Int) : PageData :=
  { id := i, title := "P", slug := "p" ++ toString i, page_type := "website",
    is_published := true, is_landing_page := false, meta_title := .null,
    meta_description := .null, layout_json := .obj [], updated_at := "t" }

def envC6 : PullEnv :=
  { companyInfoRes := .ok companyAcme,
    pagesListRes := .ok [⟨1⟩, ⟨2⟩, ⟨3⟩],
    pageGetRes := fun i => if i = 2 then .error "boom" else .ok (pageDataC6 i),
    kbSearchRes := .ok [], servicesListRes := .ok [],
    productsListRes := .ok [], now := "t1" }

theorem pull_detail_failure_skips_only_witness :
    (pullCommand optsPullPlain sessPull2 fsPullFresh envC6).outcome = .completed ∧
    ((pullCommand optsPullPlain sessPull2 fsPullFresh envC6).writes.filter
        isPageWrite).length =
      (([⟨1⟩, ⟨2⟩, ⟨3⟩] : List PageSummary).filter
        (fun q => (envC6.pageGetRes q.id).isOk)).length ∧
    (([⟨1⟩, ⟨2⟩, ⟨3⟩] : List PageSummary).filter
        (fun q => (envC6.pageGetRes q.id).isOk)).length <
      ([⟨1⟩, ⟨2⟩, ⟨3⟩] : List PageSummary).length ∧
    (pullCommand optsPullPlain sessPull2 fsPullFresh envC6).reportedPages =
      some ([⟨1⟩, ⟨2⟩, ⟨3⟩] : List PageSummary).length ∧
    (pullCommand optsPullPlain sessPull2 fsPullFresh envC6).totalFiles =
      1 + (([⟨1⟩, ⟨2⟩, ⟨3⟩] : List PageSummary).filter
          (fun q => (envC6.pageGetRes q.id).isOk)).length +
        (pullKbPhase optsPullPlain envC6).count +
        (pullServicesPhase optsPullPlain envC6).count +
        (pullProductsPhase optsPullPlain envC6).count ∧
    (pullCommand optsPullPlain sessPull2 fsPullFresh envC6).finalManifest.isSome := by
  exact pull_detail_failure_skips_only optsPullPlain sessPull2 fsPullFresh
    envC6 2 companyAcme [⟨1⟩, ⟨2⟩, ⟨3⟩] ⟨2⟩ "boom" rfl rfl (by decide)
    (Or.inl rfl) rfl rfl rfl (by decide) rfl

/-- C6 counterexample: one of three listed pages fails its detail fetch;
the pull completes and skips it, but the numbers it surfaces are
`Pulled 3 files` and the per-kind listed counts `[3, 0, 0, 0]` — the
skipped-item count (1) appears nowhere, refuting the claim that a count of
skipped items is surfaced to the caller. -/
theorem pull_skipped_count_not_surfaced :
    (pullCommand optsPullPlain sessPull2 fsPullFresh envC6).outcome = .completed ∧
    (([⟨1⟩, ⟨2⟩, ⟨3⟩] : List PageSummary).filter
        (fun q => !(envC6.pageGetRes q.id).isOk)).length = 1 ∧
    surfacedCounts (pullCommand optsPullPlain sessPull2 fsPullFresh envC6) =
      [3, 3, 0, 0, 0] ∧
    (1 : Nat) ∉
      surfacedCounts (pullCommand optsPullPlain sessPull2 fsPullFresh envC6) := by
  refine ⟨rfl, rfl, rfl, ?_⟩
  rw [show surfacedCounts (pullCommand optsPullPlain sessPull2 fsPullFresh
      envC6) = [3, 3, 0, 0, 0] from rfl]
  decide

end SolidCLI
